import Mathlib

set_option maxRecDepth 100000
set_option maxHeartbeats 4000000

/-!
Verification of the chatbot message formatter (`formatMessage` and its helper
formatters) from `src/unnamed/part_000` of the Jennihome repository.

Strings are modelled as `List Char`; every JavaScript string operation and
regular-expression scan used by the formatter is embedded as an executable
Lean function.  Regex scans are implemented as left-to-right matchers that
reproduce the engine's greedy/lazy and backtracking behaviour for the
specific patterns appearing in the source.
-/

/-- Injects a Lean string literal into the `List Char` model. -/
def S (s : String) : List Char := s.data

/-- JavaScript `\s` character class (WhiteSpace and LineTerminator). -/
def isWS (c : Char) : Bool :=
  c = ' ' || c = '\t' || c = '\n' || c = '\r' || c = '\x0b' || c = '\x0c' ||
  c = ' ' || c = ' ' || (' ' ≤ c && c ≤ ' ') ||
  c = ' ' || c = ' ' || c = ' ' || c = ' ' || c = '　' || c = '﻿'

/-- JavaScript LineTerminator characters: the ones excluded by `.` without
the `s` flag and honoured as line boundaries by multiline `^` and `$`. -/
def isLineTerm (c : Char) : Bool :=
  c = '\n' || c = '\r' || c = ' ' || c = ' '

/-- Length of the maximal leading whitespace run (greedy `\s*`). -/
def wsRunLen (cs : List Char) : Nat := (cs.takeWhile isWS).length

/-- JavaScript `String.prototype.trim` on the char-list model. -/
def trimJS (cs : List Char) : List Char :=
  ((cs.dropWhile isWS).reverse.dropWhile isWS).reverse

/-- Substring test (JavaScript `includes` / an unanchored regex literal). -/
def isSubstr (needle hay : List Char) : Bool :=
  needle.isPrefixOf hay ||
    match hay with
    | [] => false
    | _ :: t => isSubstr needle t

/-- Forward scan for the first occurrence of `needle`, carrying the current
index. -/
def firstIdxAux (needle : List Char) : List Char → Nat → Option Nat
  | hay, i =>
    if needle.isPrefixOf hay then some i
    else
      match hay with
      | [] => none
      | _ :: t => firstIdxAux needle t (i + 1)

/-- Index of the first occurrence of `needle` in `hay` (JavaScript `indexOf`). -/
def firstIdx (needle hay : List Char) : Option Nat := firstIdxAux needle hay 0

/-- Forward scan keeping the latest occurrence of `needle`. -/
def lastIdxAux (needle : List Char) : List Char → Nat → Option Nat → Option Nat
  | hay, i, best =>
    let best2 := if needle.isPrefixOf hay then some i else best
    match hay with
    | [] => best2
    | _ :: t => lastIdxAux needle t (i + 1) best2

/-- Index of the last occurrence of `needle` in `hay` (JavaScript `lastIndexOf`). -/
def lastIdx (needle hay : List Char) : Option Nat := lastIdxAux needle hay 0 none

/-- Replaces the first occurrence of the plain substring `needle` by `repl`
(JavaScript `String.prototype.replace` with a string pattern). -/
def replaceFirst (needle repl hay : List Char) : List Char :=
  if needle.isPrefixOf hay then repl ++ hay.drop needle.length
  else
    match hay with
    | [] => []
    | c :: t => c :: replaceFirst needle repl t

/-- Global replacement of every `'\n'` by `"<br>"` (`.replace(/\n/g, '<br>')`). -/
def nlToBr : List Char → List Char
  | [] => []
  | '\n' :: rest => S "<br>" ++ nlToBr rest
  | c :: rest => c :: nlToBr rest

/-- Models `text.split(/\n/)`: split on every single newline. -/
def splitNLAux : List Char → List Char → List (List Char)
  | [], acc => [acc.reverse]
  | c :: rest, acc =>
    if c = '\n' then acc.reverse :: splitNLAux rest []
    else splitNLAux rest (c :: acc)

/-- Models `text.split(/\n/)` from the start. -/
def splitNL (cs : List Char) : List (List Char) := splitNLAux cs []

/-- Splits at every LineTerminator character: the line decomposition used by
multiline `^` and `$` anchors. -/
def splitTermAux : List Char → List Char → List (List Char)
  | [], acc => [acc.reverse]
  | c :: rest, acc =>
    if isLineTerm c then acc.reverse :: splitTermAux rest []
    else splitTermAux rest (c :: acc)

/-- Line decomposition at LineTerminators from the start. -/
def splitTerm (cs : List Char) : List (List Char) := splitTermAux cs []

/-- Models `text.split(/\n{2,}/)`: maximal runs of two or more newlines separate
paragraphs.  `acc` holds the current chunk reversed, `pending` counts
newlines seen but not yet committed to either the chunk or a separator. -/
def splitDblAux : List Char → List Char → Nat → List (List Char)
  | [], acc, pending =>
    if 2 ≤ pending then [acc.reverse, []]
    else [acc.reverse ++ List.replicate pending '\n']
  | c :: rest, acc, pending =>
    if c = '\n' then splitDblAux rest acc (pending + 1)
    else if 2 ≤ pending then acc.reverse :: splitDblAux rest [c] 0
    else splitDblAux rest (c :: (List.replicate pending '\n' ++ acc)) 0

/-- Models `text.split(/\n{2,}/)` from the start. -/
def splitDbl (cs : List Char) : List (List Char) := splitDblAux cs [] 0

/-- Joins lines with single newlines (the inverse of `splitNL` on
newline-free lines). -/
def joinNL : List (List Char) → List Char
  | [] => []
  | [l] => l
  | l :: ls => l ++ '\n' :: joinNL ls

/-- No two consecutive newlines anywhere. -/
def noDblNL : List Char → Bool
  | [] => true
  | c :: rest =>
    (match rest.head? with
     | some c2 => !(c = '\n' && c2 = '\n')
     | none => true) && noDblNL rest

/-- Rejoin lines with single newlines (used to model a multiline-anchored
whole-line substitution as a per-line map). -/
def lineMap (f : List Char → List Char) (cs : List Char) : List Char :=
  List.intercalate ['\n'] ((splitNL cs).map f)

/-- The resolved colour palette (theme-specific colours of `formatMessage`). -/
structure Palette where
  background : List Char
  foreground : List Char
  border : List Char
  accent : List Char
  muted : List Char
  highlight : List Char
deriving DecidableEq, Repr

/-- The merged configuration (`config` in `formatMessage`). -/
structure FormatConfig where
  theme : List Char
  accentColor : List Char
  fontClass : List Char
  enableAnimations : Bool
deriving DecidableEq, Repr

/-- The caller-supplied `options` object: absent fields are `none` and are
filled from `defaults` by the shallow merge `{ ...defaults, ...options }`. -/
structure JsOptions where
  theme : Option (List Char) := none
  accentColor : Option (List Char) := none
  fontClass : Option (List Char) := none
  enableAnimations : Option Bool := none

/-- The defaults object of `formatMessage` merged with the options. -/
def mergeConfig (o : JsOptions) : FormatConfig where
  theme := o.theme.getD (S "light")
  accentColor := o.accentColor.getD (S "#000")
  fontClass := o.fontClass.getD (S "font-sans")
  enableAnimations := o.enableAnimations.getD true

/-- Theme-specific colours: `config.theme === 'dark' ? {...} : {...}`. -/
def resolveColors (config : FormatConfig) : Palette :=
  if config.theme = S "dark" then
    { background := S "#1f2937", foreground := S "#f9fafb", border := S "#374151",
      accent := config.accentColor, muted := S "#9ca3af", highlight := S "#2d3748" }
  else
    { background := S "#ffffff", foreground := S "#111827", border := S "#e5e7eb",
      accent := config.accentColor, muted := S "#6b7280", highlight := S "#f3f4f6" }

/-- The light palette as a function of the accent colour. -/
def lightPalette (accentColor : List Char) : Palette :=
  { background := S "#ffffff", foreground := S "#111827", border := S "#e5e7eb",
    accent := accentColor, muted := S "#6b7280", highlight := S "#f3f4f6" }

/-- The dark palette as a function of the accent colour. -/
def darkPalette (accentColor : List Char) : Palette :=
  { background := S "#1f2937", foreground := S "#f9fafb", border := S "#374151",
    accent := accentColor, muted := S "#9ca3af", highlight := S "#2d3748" }

/-- Models `rawData.replace(/\\n/g, '\n')`: every two-character escaped newline
becomes a real newline. -/
def cleanNewlines : List Char → List Char
  | '\\' :: 'n' :: rest => '\n' :: cleanNewlines rest
  | c :: rest => c :: cleanNewlines rest
  | [] => []

/-- Models `/\d+\.\s/.test(cleanData)`: the test succeeds exactly when some digit is
immediately followed by `'.'` and a whitespace character (any match of
`\d+\.\s` ends in such a triple, and any such triple is a match). -/
def hasNumMarker : List Char → Bool
  | a :: b :: c :: rest =>
    (a.isDigit && b = '.' && isWS c) || hasNumMarker (b :: c :: rest)
  | _ => false

/-- Bullet glyph class `[•*-]`. -/
def bulletGlyphP (c : Char) : Bool := c = '•' || c = '*' || c = '-'

/-- Models `/•|\*\s|-\s/.test(cleanData)`: a `•` anywhere, or `*` or `-` immediately
followed by whitespace. -/
def hasBulletGlyph : List Char → Bool
  | [] => false
  | c :: rest =>
    c = '•' ||
    (match rest with
     | w :: _ => (c = '*' || c = '-') && isWS w
     | [] => false) || hasBulletGlyph rest

/-- A single line matches `^#+ .+$`: one or more `#`, a space, then at least
one more character. -/
def headingLineTest (l : List Char) : Bool :=
  let hs := l.takeWhile (· = '#')
  decide (hs ≠ []) &&
    match l.dropWhile (· = '#') with
    | ' ' :: _ :: _ => true
    | _ => false

/-- Models `/^#+ .+$/m.test(cleanData)`: some terminator-delimited line is a
heading line (multiline `^`/`$` anchor at every LineTerminator). -/
def hasHeadingLine (cs : List Char) : Bool := (splitTerm cs).any headingLineTest

/-- Lower-cases ASCII letters, as far as the product-keyword test needs. -/
def lowerAll (cs : List Char) : List Char := cs.map Char.toLower

/-- Models `/available|color|options|finish|size|material|dimensions/i.test(cleanData)`. -/
def isProductLike (cs : List Char) : Bool :=
  let t := lowerAll cs
  isSubstr (S "available") t || isSubstr (S "color") t || isSubstr (S "options") t ||
  isSubstr (S "finish") t || isSubstr (S "size") t || isSubstr (S "material") t ||
  isSubstr (S "dimensions") t

/-- The content shape inferred by the classifier (spec data model). -/
inductive ContentShape where
  | NumberedList
  | BulletList
  | Heading
  | PlainText
deriving DecidableEq, Repr

/-- The classifier as a priority chain over the cleaned text. -/
def classify (t : List Char) : ContentShape :=
  if hasNumMarker t then .NumberedList
  else if hasBulletGlyph t then .BulletList
  else if hasHeadingLine t then .Heading
  else .PlainText

/-- Models `wrapInContainer`: outer themed container, template reproduced verbatim. -/
def wrapInContainer (content : List Char) (colors : Palette) (config : FormatConfig) : List Char :=
  let containerStyle :=
    S "\n    background-color: " ++ colors.background ++ S "; \n    color: " ++
    colors.foreground ++ S ";\n  "
  let animationClass := if config.enableAnimations then S "animate-fade-in" else []
  S "\n    <div class=\"message-container " ++ config.fontClass ++ S " " ++ animationClass ++
  S "\" style=\"" ++ containerStyle ++ S "\">\n      " ++ content ++ S "\n    </div>\n  "

/-- Models `formatPlainText`: paragraph split on blank lines, `<br>` for single
newlines, each paragraph wrapped in a `<p>` tag. -/
def formatPlainText (text : List Char) (colors : Palette) (config : FormatConfig) : List Char :=
  wrapInContainer
    (((splitDbl text).map
      (fun para => S "<p class=\"mb-4 leading-relaxed\">" ++ nlToBr para ++ S "</p>")).flatten)
    colors config

/-- Models `line.match(/^([•*-])\s+(.+)$/)`: returns the second capture.  Since
`.` matches no LineTerminator and `$` (no `m` flag) only the end of input, a
capture containing a LineTerminator is impossible: the dot stops before it
and no backtracking of `\s+` or `.+` can ever consume it, so the whole match
fails.  The greedy `\s+` takes the maximal whitespace run; if nothing remains
for `(.+)` the engine gives one whitespace character back (possible only when
the run has length at least two and that character is not a LineTerminator). -/
def bulletLineMatch (l : List Char) : Option (List Char) :=
  match l with
  | [] => none
  | g :: rest =>
    if bulletGlyphP g then
      let k := wsRunLen rest
      if k = 0 then none
      else
        match rest.drop k with
        | [] =>
          match rest.drop (k - 1) with
          | w :: _ =>
            if 2 ≤ k ∧ isLineTerm w = false then some (rest.drop (k - 1)) else none
          | [] => none
        | c :: cr => if (c :: cr).any isLineTerm then none else some (c :: cr)
    else none

/-- Per-line test of `/^[•*-]\s+/m.test(para)` (applied to every
terminator-delimited line): the line begins with a glyph and whitespace. -/
def bulletStartTest (l : List Char) : Bool :=
  match l with
  | g :: w :: _ => bulletGlyphP g && isWS w
  | _ => false

/-- Opening tag of the bullet list in `formatBulletPoints`. -/
def bpUlOpen (colors : Palette) : List Char :=
  S "<ul class=\"list-disc pl-5 my-3 space-y-2\" style=\"color: " ++ colors.foreground ++ S ";\">"

/-- The `lines.forEach` loop of `formatBulletPoints`, with its explicit
`inList` state. -/
def renderBulletLines (colors : Palette) : List (List Char) → Bool → List Char
  | [], inList => if inList then S "</ul>" else []
  | l :: ls, inList =>
    match bulletLineMatch l with
    | some content =>
      (if inList then [] else bpUlOpen colors) ++
      S "<li class=\"pl-1\">" ++ content ++ S "</li>" ++ renderBulletLines colors ls true
    | none =>
      (if inList then S "</ul>" else []) ++
      S "<p class=\"mb-3\">" ++ l ++ S "</p>" ++ renderBulletLines colors ls false

/-- Models `formatBulletPoints`. -/
def formatBulletPoints (response : List Char) (colors : Palette) (config : FormatConfig) : List Char :=
  wrapInContainer
    (((splitDbl response).map
      (fun para =>
        if (splitTerm para).any bulletStartTest then
          renderBulletLines colors (splitNL para) false
        else
          S "<p class=\"mb-4 leading-relaxed\" style=\"color: " ++ colors.foreground ++
          S ";\">" ++ para ++ S "</p>")).flatten)
    colors config

/-- Heading substitution `^# (.+)$` on one line. -/
def mdH1 (colors : Palette) (l : List Char) : List Char :=
  if l.take 2 = ['#', ' '] ∧ l.drop 2 ≠ [] then
    S "<h1 class=\"text-2xl font-bold mb-4 mt-6\" style=\"color: " ++ colors.accent ++
    S ";\">" ++ l.drop 2 ++ S "</h1>"
  else l

/-- Heading substitution `^## (.+)$` on one line. -/
def mdH2 (colors : Palette) (l : List Char) : List Char :=
  if l.take 3 = ['#', '#', ' '] ∧ l.drop 3 ≠ [] then
    S "<h2 class=\"text-xl font-bold mb-3 mt-5\" style=\"color: " ++ colors.accent ++
    S ";\">" ++ l.drop 3 ++ S "</h2>"
  else l

/-- Heading substitution `^### (.+)$` on one line. -/
def mdH3 (colors : Palette) (l : List Char) : List Char :=
  if l.take 4 = ['#', '#', '#', ' '] ∧ l.drop 4 ≠ [] then
    S "<h3 class=\"text-lg font-bold mb-2 mt-4\" style=\"color: " ++ colors.accent ++
    S ";\">" ++ l.drop 4 ++ S "</h3>"
  else l

/-- Lazy search for `(.+?)` up to the next occurrence of `delim` on the same
line: returns the shortest non-empty LineTerminator-free content together
with the remainder after the delimiter (the dot matches no LineTerminator). -/
def lazyUntil (delim : List Char) : List Char → Option (List Char × List Char)
  | [] => none
  | c :: rest =>
    if isLineTerm c then none
    else if delim.isPrefixOf rest then some ([c], rest.drop delim.length)
    else (lazyUntil delim rest).map (fun p => (c :: p.1, p.2))

/-- Global replacement of `delim(.+?)delim` by `openT…closeT` (the bold,
italic and inline-code passes of `formatMarkdown`). -/
def inlineWrap (delim openT closeT : List Char) : Nat → List Char → List Char
  | 0, cs => cs
  | _ + 1, [] => []
  | fuel + 1, c :: rest =>
    if delim.isPrefixOf (c :: rest) then
      match lazyUntil delim ((c :: rest).drop delim.length) with
      | some (content, rst) =>
        openT ++ content ++ closeT ++ inlineWrap delim openT closeT fuel rst
      | none => c :: inlineWrap delim openT closeT fuel rest
    else c :: inlineWrap delim openT closeT fuel rest

/-- Models `formatMarkdown`: heading substitutions in source order (`#`, then `##`,
then `###`), then bold, italic and inline code, then paragraph wrapping. -/
def formatMarkdown (text : List Char) (colors : Palette) (config : FormatConfig) : List Char :=
  let t1 := lineMap (mdH1 colors) text
  let t2 := lineMap (mdH2 colors) t1
  let t3 := lineMap (mdH3 colors) t2
  let t4 := inlineWrap (S "**") (S "<strong>") (S "</strong>") t3.length t3
  let t5 := inlineWrap ['*'] (S "<em>") (S "</em>") t4.length t4
  let t6 :=
    inlineWrap ['\x60']
      (S "<code class=\"px-1 py-0.5 rounded\" style=\"background-color: " ++
        colors.highlight ++ S ";\">")
      (S "</code>") t5.length t5
  wrapInContainer
    (((splitDbl t6).map
      (fun para =>
        if (S "<h").isPrefixOf para || (S "<ul").isPrefixOf para then para
        else
          S "<p class=\"mb-4 leading-relaxed\" style=\"color: " ++ colors.foreground ++
          S ";\">" ++ nlToBr para ++ S "</p>")).flatten)
    colors config


/-- A list item: verbatim label and the content span attributed to it. -/
structure ListItem where
  number : List Char
  content : List Char
deriving DecidableEq, Repr

/-- Generic leftmost scan: returns the first position (left to right) at
which `f` produces a result. -/
def scanFirst {α : Type} (f : List Char → Option α) : List Char → Option α
  | [] => f []
  | c :: t =>
    match f (c :: t) with
    | some r => some r
    | none => scanFirst f t

/-- Generic existence scan: does `test` hold on some suffix? -/
def anySuffix (test : List Char → Bool) : List Char → Bool
  | [] => test []
  | c :: t => test (c :: t) || anySuffix test t

/-- The lookahead of the intro regex
`/^(.*?)(?=\*\*1\.\*\*|\*\*1\.\s\*\*|1\.\s)/s`: one of the three
alternatives starts at this position. -/
def introLookahead (cs : List Char) : Bool :=
  (S "**1.**").isPrefixOf cs ||
  (match cs with
   | '*' :: '*' :: '1' :: '.' :: w :: '*' :: '*' :: _ => isWS w
   | _ => false) ||
  (match cs with
   | '1' :: '.' :: w :: _ => isWS w
   | _ => false)

/-- Position of the first point where a lookahead test succeeds. -/
def scanPosAux (test : List Char → Bool) : List Char → Nat → Option Nat
  | cs, i =>
    if test cs then some i
    else
      match cs with
      | [] => none
      | _ :: t => scanPosAux test t (i + 1)

/-- Position of the first point where a lookahead test succeeds. -/
def scanPos (test : List Char → Bool) (cs : List Char) : Option Nat :=
  scanPosAux test cs 0

/-- Models `introText` of `formatNumberedList`: the (trimmed) text before the first
numbered marker, empty when the lookahead never matches. -/
def introOf (cs : List Char) : List Char :=
  match scanPos introLookahead cs with
  | some p => trimJS (cs.take p)
  | none => []

/-- Parses `\*\*(\d+)\.` at the head: bold opener, digits, dot. -/
def boldMarkerParse : List Char → Option (List Char × List Char)
  | '*' :: '*' :: rest =>
    let ds := rest.takeWhile Char.isDigit
    if ds = [] then none
    else
      match rest.dropWhile Char.isDigit with
      | '.' :: rest2 => some (ds, rest2)
      | _ => none
  | _ => none

/-- Character class `[^*\d\n]`. -/
def boldContentClass (c : Char) : Bool := !(c = '*' || c.isDigit || c = '\n')

/-- Candidate content-start `k` for the tail `\s*\n\s*[^*\d\n]`: all of
`cs.take k` is whitespace (guaranteed by the caller, who bounds `k` by the
whitespace run), it contains a newline, and `cs` has a class character at
`k`. -/
def tailCapOk (cs : List Char) (k : Nat) : Bool :=
  (cs.take k).contains '\n' &&
    match cs.drop k with
    | c :: _ => boldContentClass c
    | [] => false

/-- Backtracking search for the engine's content start: the largest valid
`k` (the greedy `\s*`s maximise first, giving the rightmost admissible
start). -/
def tailCapAux (cs : List Char) : Nat → Option Nat
  | 0 => none
  | k + 1 => if tailCapOk cs (k + 1) then some (k + 1) else tailCapAux cs k

/-- Content start chosen by the engine for `\s*\n\s*[^*\d\n]…` (`none` when
the tail cannot match at all). -/
def tailCap (cs : List Char) : Option Nat := tailCapAux cs (wsRunLen cs)

/-- Models `/\*\*\d+\.\*\*\s*\n\s*[^*\d\n]+/` at one position.  Its tail matches
exactly when the extraction tail `\s*\n\s*[^*\d\n][^\n]*` does, so the
shared `tailCap` existence test is used. -/
def boldDetectAt (cs : List Char) : Bool :=
  match boldMarkerParse cs with
  | some (_, rest3) =>
    if rest3.take 2 = ['*', '*'] then (tailCap (rest3.drop 2)).isSome else false
  | none => false

/-- Models `response.match(/\*\*\d+\.\*\*\s*\n\s*[^*\d\n]+/)` as a Boolean test. -/
def boldDetect (cs : List Char) : Bool := anySuffix boldDetectAt cs

/-- Tail of a bold-numbers extraction after the closing `**`: the engine's
content start, the captured line rest, and the remainder after the match. -/
def boldTailExtract (ds rest4 : List Char) : Option (List Char × List Char × List Char) :=
  match tailCap rest4 with
  | some k =>
    let content := (rest4.drop k).takeWhile (· ≠ '\n')
    some (ds, content, (rest4.drop k).drop content.length)
  | none => none

/-- One match of `/\*\*(\d+)\.(?:\*\*|\s\*\*)\s*\n\s*([^*\d\n][^\n]*)/` at
this position (the alternation tries the bare `**` before whitespace plus
`**`): label, content capture and the remainder after the match. -/
def boldExtractAt (cs : List Char) : Option (List Char × List Char × List Char) :=
  match boldMarkerParse cs with
  | some (ds, rest3) =>
    if rest3.take 2 = ['*', '*'] then boldTailExtract ds (rest3.drop 2)
    else if (match rest3.head? with | some w => isWS w | none => false) &&
        rest3.tail.take 2 = ['*', '*'] then
      boldTailExtract ds (rest3.drop 3)
    else none
  | none => none

/-- The `while (pattern.exec(response))` loop: collect matches left to
right, resuming after each match's end. -/
def boldItemsScan : Nat → List Char → List ListItem
  | 0, _ => []
  | _ + 1, [] => []
  | fuel + 1, c :: rest =>
    match boldExtractAt (c :: rest) with
    | some (ds, content, rem) => ⟨ds, trimJS content⟩ :: boldItemsScan fuel rem
    | none => boldItemsScan fuel rest

/-- All items of the bold-numbers variant. -/
def boldItems (cs : List Char) : List ListItem := boldItemsScan cs.length cs

/-- Head match of `/\n\s*\n([\s\S]+)$/`: after the leading newline the
engine picks the last newline in the whitespace run that still leaves at
least one character for the capture. -/
def secondNLAux (rest : List Char) : Nat → Option Nat
  | 0 => none
  | p + 1 =>
    if (match rest.drop p with
        | '\n' :: _ :: _ => true
        | _ => false) then some p
    else secondNLAux rest p

/-- Models `/\n\s*\n([\s\S]+)$/` matched at the head of `cs`: the capture group. -/
def dblNLGroupAt (cs : List Char) : Option (List Char) :=
  match cs with
  | '\n' :: rest =>
    match secondNLAux rest (wsRunLen rest) with
    | some p => some (rest.drop (p + 1))
    | none => none
  | _ => none

/-- Models `textAfterLastItem.match(/\n\s*\n([\s\S]+)$/)`: leftmost match. -/
def findDblNLGroup (cs : List Char) : Option (List Char) := scanFirst dblNLGroupAt cs

/-- One item of the bold-numbers list template. -/
def boldItemHtml (colors : Palette) (it : ListItem) : List Char :=
  S "\n    <div class=\"simple-list-item mb-2\">\n      <p class=\"pl-1 leading-relaxed\" style=\"color: " ++
  colors.foreground ++
  S ";\">\n        <span style=\"color: " ++ colors.accent ++
  S "; font-weight: 500;\">" ++ it.number ++ S ".</span> " ++ it.content ++
  S "\n      </p>\n    </div>\n  "

/-- One item of the simple numbered-list template. -/
def simpleItemHtml (colors : Palette) (it : ListItem) : List Char :=
  S "\n    <div class=\"simple-list-item mb-2\">\n      <p class=\"pl-1 leading-relaxed\" style=\"color: " ++
  colors.foreground ++
  S ";\">\n        <span style=\"font-weight: normal;\">" ++ it.number ++
  S ".</span> " ++ it.content ++ S "\n      </p>\n    </div>\n  "

/-- The shared intro/items/conclusion assembly of the simple and
bold-numbers variants. -/
def simpleListContent (intro fi concl : List Char) : List Char :=
  S "\n    " ++
  (if intro ≠ [] then S "<div class=\" leading-relaxed p-[10px]\">" ++ nlToBr intro ++ S "</div>" else []) ++
  S "\n    <div class=\"simple-list-container m-2\">\n      " ++ fi ++
  S "\n    </div>\n    " ++
  (if concl ≠ [] then S "<div class=\" leading-relaxed p-[10px]\">" ++ nlToBr concl ++ S "</div>" else []) ++
  S "\n  "

/-- Models `formatBoldNumbersList`. -/
def formatBoldNumbersList (response introText : List Char) (colors : Palette)
    (config : FormatConfig) : List Char :=
  let items := boldItems response
  if items = [] then formatPlainText response colors config
  else
    let last := items.getLastD ⟨[], []⟩
    let textAfter :=
      match lastIdx (S "**" ++ last.number ++ S ".") response with
      | some p => response.drop (p + last.content.length + 10)
      | none => response.drop (last.content.length + 9)
    let conclusionText :=
      match findDblNLGroup textAfter with
      | some g => trimJS g
      | none => []
    let formattedItems := (items.map (boldItemHtml colors)).flatten
    wrapInContainer (simpleListContent introText formattedItems conclusionText) colors config

/-- Lookahead `1\.\s` used by the intro regex of the simple variant. -/
def simpleIntroLook : List Char → Bool
  | '1' :: '.' :: w :: _ => isWS w
  | _ => false

/-- Engine's choice of `\s+` length for `\s+([^\d\n][^\n]*)`: the longest
`j ≥ 1` within the whitespace run whose following character is neither a
digit nor a newline. -/
def simpleCSAux (post : List Char) : Nat → Option Nat
  | 0 => none
  | j + 1 =>
    if (match post.drop (j + 1) with
        | c :: _ => !(c.isDigit || c = '\n')
        | [] => false) then some (j + 1)
    else simpleCSAux post j

/-- Content start of `/(\d+)\.\s+([^\d\n][^\n]*)/` relative to the text
after the dot. -/
def simpleContentStart (post : List Char) : Option Nat :=
  simpleCSAux post (wsRunLen post)

/-- One match of `/(\d+)\.\s+([^\d\n][^\n]*)/` at a position: the raw item
and the overall match length. -/
def simpleItemAt (cs : List Char) : Option (ListItem × Nat) :=
  let ds := cs.takeWhile Char.isDigit
  if ds = [] then none
  else
    match cs.dropWhile Char.isDigit with
    | '.' :: post =>
      match simpleContentStart post with
      | some j =>
        let content := (post.drop j).takeWhile (· ≠ '\n')
        some (⟨ds, content⟩, ds.length + 1 + j + content.length)
      | none => none
    | _ => none

/-- Models `matchAll` for the simple item regex: items with index and match
length. -/
def simpleScanAux : Nat → List Char → Nat → List (ListItem × Nat × Nat)
  | 0, _, _ => []
  | _ + 1, [], _ => []
  | fuel + 1, c :: rest, i =>
    match simpleItemAt (c :: rest) with
    | some (it, mlen) => (it, i, mlen) :: simpleScanAux fuel ((c :: rest).drop mlen) (i + mlen)
    | none => simpleScanAux fuel rest (i + 1)

/-- All simple-variant matches of a response. -/
def simpleMatches (cs : List Char) : List (ListItem × Nat × Nat) :=
  simpleScanAux cs.length cs 0

/-- The existence test `response.match(/\d+\.\s+[^\n]+/g)`: some `j` in the
whitespace run (taken by `\s+`) is followed by a character other than a
newline. -/
def simpleDetectTail (post : List Char) : Nat → Bool
  | 0 => false
  | j + 1 =>
    (match post.drop (j + 1) with
     | c :: _ => decide (c ≠ '\n')
     | [] => false) || simpleDetectTail post j

/-- Models `/\d+\.\s+[^\n]+/` at one position. -/
def simpleDetectAt (cs : List Char) : Bool :=
  let ds := cs.takeWhile Char.isDigit
  decide (ds ≠ []) &&
    match cs.dropWhile Char.isDigit with
    | '.' :: post => simpleDetectTail post (wsRunLen post)
    | _ => false

/-- Models `hasSimpleList`: no bold markers anywhere and at least one simple item
match. -/
def hasSimpleList (response : List Char) : Bool :=
  !(isSubstr (S "**") response) && anySuffix simpleDetectAt response

/-- Models `formatSimpleNumberedList`. -/
def formatSimpleNumberedList (response : List Char) (colors : Palette)
    (config : FormatConfig) : List Char :=
  let introText :=
    match scanPos simpleIntroLook response with
    | some p => trimJS (response.take p)
    | none => []
  let ms := simpleMatches response
  let items := ms.map (fun m => ListItem.mk m.1.number (trimJS m.1.content))
  let conclusionText :=
    if items = [] then []
    else
      let lm := ms.getLastD (⟨[], []⟩, 0, 0)
      let lastEnd := lm.2.1 + lm.2.2
      if lastEnd < response.length then
        let textAfter := response.drop lastEnd
        match firstIdx ['\n'] textAfter with
        | some i => trimJS (textAfter.drop (i + 1))
        | none => []
      else []
  let formattedItems := (items.map (simpleItemHtml colors)).flatten
  wrapInContainer (simpleListContent introText formattedItems conclusionText) colors config

/-- One match of `/(\d+)\.\s+/` at a position: label and match length
(greedy `\s+` takes the whole whitespace run). -/
def numMatchAt (cs : List Char) : Option (List Char × Nat) :=
  let ds := cs.takeWhile Char.isDigit
  if ds = [] then none
  else if (cs.dropWhile Char.isDigit).head? = some '.' then
    let k := wsRunLen (cs.dropWhile Char.isDigit).tail
    if k = 0 then none else some (ds, ds.length + 1 + k)
  else none

/-- Models `[...response.matchAll(/(\d+)\.\s+/g)]`: index, label and match length
of every marker, left to right. -/
def numMatchesAux : Nat → List Char → Nat → List (Nat × List Char × Nat)
  | 0, _, _ => []
  | _ + 1, [], _ => []
  | fuel + 1, c :: rest, i =>
    match numMatchAt (c :: rest) with
    | some (ds, mlen) => (i, ds, mlen) :: numMatchesAux fuel ((c :: rest).drop mlen) (i + mlen)
    | none => numMatchesAux fuel rest (i + 1)

/-- All numbered markers of a response. -/
def numMatches (cs : List Char) : List (Nat × List Char × Nat) :=
  numMatchesAux cs.length cs 0

/-- First index of a `/\n\s*\n/` match: a newline whose following
whitespace run contains another newline. -/
def findDblIdxAux : List Char → Nat → Option Nat
  | [], _ => none
  | c :: rest, i =>
    if c = '\n' && (rest.takeWhile isWS).contains '\n' then some i
    else findDblIdxAux rest (i + 1)

/-- First index of a `/\n\s*\n/` match. -/
def findDblIdx (cs : List Char) : Option Nat := findDblIdxAux cs 0

/-- The item-extraction loop of the general numbered variant: each item's
span runs from the end of its marker to the next marker (or, for the last
item, to the first double newline or the end of the text), then is
trimmed. -/
def buildItems (resp : List Char) : List (Nat × List Char × Nat) → List ListItem
  | [] => []
  | (idx, ds, mlen) :: rest =>
    let startPos := idx + mlen
    let endPos :=
      match rest with
      | (idx2, _, _) :: _ => idx2
      | [] =>
        match findDblIdx (resp.drop startPos) with
        | some j => startPos + j
        | none => resp.length
    ⟨ds, trimJS ((resp.drop startPos).take (endPos - startPos))⟩ :: buildItems resp rest

/-- Models `remainingText.match(/^\s*\n\s*\n/)`: the leading whitespace run holds
at least two newlines. -/
def startsDblNL (cs : List Char) : Bool :=
  2 ≤ (cs.takeWhile isWS).count '\n'

/-- Models `remainingText.replace(/^\s*\n\s*\n/, '')`: the greedy match extends to
the last newline of the leading whitespace run. -/
def stripLeadingDbl (cs : List Char) : List Char :=
  match lastIdx ['\n'] (cs.takeWhile isWS) with
  | some p => cs.drop (p + 1)
  | none => cs

/-- Conclusion extraction of the general numbered variant (note the
approximate end position: the trimmed content length is added to the match
end, exactly as the source does). -/
def generalConclusion (resp : List Char) (ms : List (Nat × List Char × Nat))
    (items : List ListItem) : List Char :=
  let lm := ms.getLastD (0, [], 0)
  let li := items.getLastD ⟨[], []⟩
  let lastEnd := lm.1 + lm.2.2 + li.content.length
  let remainingText := trimJS (resp.drop lastEnd)
  if remainingText ≠ [] ∧ startsDblNL remainingText then
    trimJS (stripLeadingDbl remainingText)
  else if remainingText ≠ [] ∧ !(hasNumMarker remainingText) then
    trimJS remainingText
  else []

/-- The intro/items/conclusion assembly of the general numbered variant. -/
def nlContent (intro fi concl : List Char) : List Char :=
  S "\n    " ++
  (if intro ≠ [] then
    S "<div class=\"leading-relaxed px-[10px] py-[2px] text-[14px]\">" ++ nlToBr intro ++ S "</div>"
  else []) ++
  S "\n    <div class=\"list-container m-2\">\n      " ++ fi ++
  S "\n    </div>\n    " ++
  (if concl ≠ [] then
    S "<div class=\"mt-[2px] leading-relaxed px-[10px] py-[2px] text-[14px]\">" ++ nlToBr concl ++ S "</div>"
  else []) ++
  S "\n  "


/-- One match of the header pattern `/\*\*(\d+\.\s+[^*]+)\*\*/` at a
position: capture group and full match.  After the dot, the greedy `\s+`
and `[^*]+` together cover everything up to the next `*` (the engine gives
one whitespace character back to `[^*]+` when the star wall coincides with
the end of the whitespace run). -/
def headerBoldAt (cs : List Char) : Option (List Char × List Char) :=
  match cs with
  | '*' :: '*' :: rest =>
    let ds := rest.takeWhile Char.isDigit
    if ds = [] then none
    else
      match rest.dropWhile Char.isDigit with
      | '.' :: post =>
        let k := wsRunLen post
        if k = 0 then none
        else
          match firstIdx ['*'] post with
          | none => none
          | some w =>
            let j := if k < w then k else w - 1
            if 1 ≤ j ∧ j < w then
              match post.drop w with
              | '*' :: '*' :: _ =>
                let g1 := ds ++ '.' :: post.take w
                some (g1, S "**" ++ g1 ++ S "**")
              | _ => none
            else none
      | _ => none
  | _ => none

/-- One match of `/\*\*([^*]+)\*\*/` at a position: inner text and consumed
length. -/
def boldPlainAt : List Char → Option (List Char × Nat)
  | '*' :: '*' :: rest =>
    (match firstIdx ['*'] rest with
     | none => none
     | some w =>
       if w = 0 then none
       else
         match rest.drop w with
         | '*' :: '*' :: _ => some (rest.take w, 2 + w + 2)
         | _ => none)
  | _ => none

/-- Models `content.match(/\*\*([^*]+)\*\*/g)`: the list of full match strings. -/
def boldPlainScan : Nat → List Char → List (List Char)
  | 0, _ => []
  | _ + 1, [] => []
  | fuel + 1, c :: rest =>
    match boldPlainAt (c :: rest) with
    | some (inner, consumed) =>
      (S "**" ++ inner ++ S "**") :: boldPlainScan fuel ((c :: rest).drop consumed)
    | none => boldPlainScan fuel rest

/-- All non-lazy bold matches of a content string. -/
def boldPlainMatches (cs : List Char) : List (List Char) := boldPlainScan cs.length cs

/-- Models `match.replace(/\*\*/g, '')`: global left-to-right removal of `**`. -/
def stripDblStars : List Char → List Char
  | '*' :: '*' :: rest => stripDblStars rest
  | c :: rest => c :: stripDblStars rest
  | [] => []

/-- Models `/^\d+\.?$/.test(content)`. -/
def isNumDot (t : List Char) : Bool :=
  let ds := t.takeWhile Char.isDigit
  decide (ds ≠ []) && (t.drop ds.length = [] || t.drop ds.length = ['.'])

/-- The product-code filter of `formatProductItem`: a bold span is dropped
when it is short and consists of a bare number or is mostly digits. -/
def prodCodeLike (m : List Char) : Bool :=
  let content := trimJS (stripDblStars m)
  decide (content.length < 10) &&
    (isNumDot content ||
      (content.any Char.isDigit &&
        decide (content.length < 2 * (content.filter Char.isDigit).length)))

/-- Joins title parts with `' and '`. -/
def joinAnd (xs : List (List Char)) : List Char := List.intercalate (S " and ") xs

/-- One match of `/\*\*(\d+\.?)\*\*/` at a position: replacement text (the
capture) and consumed length. -/
def boldNumAt : List Char → Option (List Char × Nat)
  | '*' :: '*' :: rest =>
    (let ds := rest.takeWhile Char.isDigit
     if ds = [] then none
     else
       match rest.dropWhile Char.isDigit with
       | '.' :: '*' :: '*' :: _ => some (ds ++ ['.'], 2 + ds.length + 1 + 2)
       | '*' :: '*' :: _ => some (ds, 2 + ds.length + 2)
       | _ => none)
  | _ => none

/-- Models `.replace(/\*\*(\d+\.?)\*\*/g, '$1')`. -/
def boldNumStripScan : Nat → List Char → List Char
  | 0, cs => cs
  | _ + 1, [] => []
  | fuel + 1, c :: rest =>
    match boldNumAt (c :: rest) with
    | some (repl, consumed) => repl ++ boldNumStripScan fuel ((c :: rest).drop consumed)
    | none => c :: boldNumStripScan fuel rest

/-- Global bold-product-code stripper. -/
def boldNumStrip (cs : List Char) : List Char := boldNumStripScan cs.length cs

/-- Models `.replace(/^\s*:\s*/, '')`: an anchored leading colon (with surrounding
whitespace) is removed. -/
def stripLeadColon (cs : List Char) : List Char :=
  let k := wsRunLen cs
  match cs.drop k with
  | ':' :: rest => rest.drop (wsRunLen rest)
  | _ => cs

/-- One unit of `[-•*]\s+.*(?:\n|$)`: returns the line rest (the `.*` part)
and the consumed length.  The greedy `\s+` may swallow LineTerminators; `.*`
then stops at the next LineTerminator.  A following `'\n'` is consumed and
the end of input also closes the unit, but any other LineTerminator makes
the unit fail outright: neither `\n` nor `$` holds there and no amount of
backtracking lets any token consume it. -/
def bulletUnitAt (cs : List Char) : Option (List Char × Nat) :=
  match cs with
  | g :: rest =>
    if bulletGlyphP g then
      let k := wsRunLen rest
      if k = 0 then none
      else
        let afterWS := rest.drop k
        let lineRest := afterWS.takeWhile (fun c => isLineTerm c = false)
        match afterWS.drop lineRest.length with
        | [] => some (lineRest, 1 + k + lineRest.length)
        | c :: _ =>
          if c = '\n' then some (lineRest, 1 + k + lineRest.length + 1) else none
    else none
  | [] => none

/-- Maximal run of consecutive units (`(?:…)+`): total consumed length,
`0` when no unit matches here. -/
def bulletRunLen : Nat → List Char → Nat
  | 0, _ => 0
  | fuel + 1, cs =>
    match bulletUnitAt cs with
    | some (_, n) => n + bulletRunLen fuel (cs.drop n)
    | none => 0

/-- Models `remainingContent.match(/(?:[-•*]\s+.*(?:\n|$))+/g)`: the list of
maximal bullet groups. -/
def bulletGroupsScan : Nat → List Char → List (List Char)
  | 0, _ => []
  | _ + 1, [] => []
  | fuel + 1, c :: rest =>
    let n := bulletRunLen (fuel + 1) (c :: rest)
    if n = 0 then bulletGroupsScan fuel rest
    else (c :: rest).take n :: bulletGroupsScan fuel ((c :: rest).drop n)

/-- All bullet groups of a content string. -/
def bulletGroups (cs : List Char) : List (List Char) := bulletGroupsScan cs.length cs

/-- Models `bulletGroup.match(/[-•*]\s+(.*?)(?:\n|$)/g)` followed by
`replace(/^[-•*]\s+/, '').trim()`: each unit's trimmed line rest. -/
def unitItemsScan : Nat → List Char → List (List Char)
  | 0, _ => []
  | _ + 1, [] => []
  | fuel + 1, c :: rest =>
    match bulletUnitAt (c :: rest) with
    | some (lineRest, n) => trimJS lineRest :: unitItemsScan fuel ((c :: rest).drop n)
    | none => unitItemsScan fuel rest

/-- The `listItems` array of `formatProductItem`: per group, the non-empty
cleaned bullet texts. -/
def prodListItems (remaining : List Char) : List (List Char) :=
  ((bulletGroups remaining).map (fun g => (unitItemsScan g.length g).filter (· ≠ []))).flatten

/-- One match of `/Available\s+in\s+(.*?)(?=\n\n|$)/is` at a position: the
capture runs from after the greedy whitespace to the first blank line or
the end of the string. -/
def availAt (cs : List Char) : Option (List Char) :=
  let a := cs.take 9
  if a.map Char.toLower = S "available" then
    let r1 := cs.drop 9
    let k1 := wsRunLen r1
    if k1 = 0 then none
    else
      match r1.drop k1 with
      | i :: n :: r3 =>
        if i.toLower = 'i' ∧ n.toLower = 'n' then
          let k2 := wsRunLen r3
          if k2 = 0 then none
          else
            let r4 := r3.drop k2
            some (match firstIdx (S "\n\n") r4 with
                  | some e => r4.take e
                  | none => r4)
        else none
      | _ => none
  else none

/-- Leftmost `Available in` capture of a content string. -/
def availMatch (cs : List Char) : Option (List Char) := scanFirst availAt cs

/-- Title and remaining content extracted by `formatProductItem` before any
rendering. -/
def productTitleSplit (content : List Char) : List Char × List Char :=
  match scanFirst headerBoldAt content with
  | some (g1, full) => (trimJS g1, replaceFirst full [] content)
  | none =>
    let bms := boldPlainMatches content
    if bms = [] then ([], content)
    else
      let titleMs := bms.filter (fun m => !prodCodeLike m)
      if titleMs = [] then ([], content)
      else
        (joinAnd (titleMs.map (fun m => trimJS (stripDblStars m))),
         titleMs.foldl (fun acc m => replaceFirst m [] acc) content)

/-- Cleaned remaining content of `formatProductItem` (trim, bold product
codes unwrapped, leading colon removed). -/
def productRemaining (content : List Char) : List Char :=
  stripLeadColon (boldNumStrip (trimJS (productTitleSplit content).2))

/-- Models `formatProductItem`. -/
def formatProductItem (item : ListItem) (colors : Palette) (_config : FormatConfig) : List Char :=
  let title := (productTitleSplit item.content).1
  let remainingContent := productRemaining item.content
  let listItems := prodListItems remainingContent
  let avail := availMatch remainingContent
  let featuredContent :=
    match avail with
    | some cap => boldNumStrip (trimJS cap)
    | none => remainingContent
  S "\n    <div class=\"product-item px-4 py-[2px]\"\n         style=\"border-color: " ++
  colors.border ++ S "; background-color: " ++ colors.background ++
  S ";\">\n      <h3 class=\"text-[16px] font-semibold mb-2\" style=\"color: " ++
  colors.accent ++ S ";\">\n        " ++ item.number ++ S ". " ++ title ++
  S "\n      </h3>\n      \n      " ++
  (if listItems ≠ [] then
    S "\n        <ul class=\"list-disc pl-8 mt-2 space-y-1 mb-3 text-[14px]\">\n          " ++
    (listItems.map (fun li =>
      S "<li style=\"color: " ++ colors.foreground ++ S ";\">" ++ li ++ S "</li>")).flatten ++
    S "\n        </ul>\n      "
  else
    S "\n        <div class=\"py-1 text-[14px]\" style=\"color: " ++ colors.foreground ++
    S ";\">\n          " ++
    (if avail.isSome then S "Available in " ++ featuredContent else featuredContent) ++
    S "\n        </div>\n      ") ++
  S "\n    </div>\n  "

/-- Lazy search for `(.*?):\*\*\s+` starting inside a bold opener: grows the
first capture until a `:**` followed by whitespace is found; returns the
capture and the text after the whitespace run. -/
def catColonFind : Nat → List Char → List Char → Option (List Char × List Char)
  | 0, _, _ => none
  | fuel + 1, cur, acc =>
    if (S ":**").isPrefixOf cur then
      let after := cur.drop 3
      let k := wsRunLen after
      if 1 ≤ k then some (acc.reverse, after.drop k)
      else
        match cur with
        | c :: t => catColonFind fuel t (c :: acc)
        | [] => none
    else
      match cur with
      | [] => none
      | c :: t => catColonFind fuel t (c :: acc)

/-- Models `/\*\*(.*?):\*\*\s+(.*)/s` at one position: main heading and the rest
of the string (the greedy second capture). -/
def mainCatAt (cs : List Char) : Option (List Char × List Char) :=
  match cs with
  | '*' :: '*' :: rest => catColonFind rest.length rest []
  | _ => none

/-- The lookahead `(?=\s+-\s+\*\*)` of the sub-item regex. -/
def subLookahead (cs : List Char) : Bool :=
  let k := wsRunLen cs
  if k = 0 then false
  else
    match cs.drop k with
    | '-' :: r =>
      let k2 := wsRunLen r
      if k2 = 0 then false
      else
        match r.drop k2 with
        | '*' :: '*' :: _ => true
        | _ => false
    | _ => false

/-- Grows the lazy second capture of the sub-item regex until the lookahead
succeeds or the string ends. -/
def lazyUntilLook : Nat → List Char → List Char → List Char × List Char
  | 0, cur, acc => (acc.reverse, cur)
  | fuel + 1, cur, acc =>
    if subLookahead cur then (acc.reverse, cur)
    else
      match cur with
      | [] => (acc.reverse, [])
      | c :: t => lazyUntilLook fuel t (c :: acc)

/-- One match of the sub-item regex `[-]\s+\*\*(.*?):\*\*\s+(.*?)(?=\s+-\s+\*\*|$)` (flags `gs`) at a
position: both captures and the remainder from the match end. -/
def subItemAt (cs : List Char) : Option (List Char × List Char × List Char) :=
  match cs with
  | '-' :: r =>
    let k1 := wsRunLen r
    if k1 = 0 then none
    else
      match r.drop k1 with
      | '*' :: '*' :: r2 =>
        match catColonFind r2.length r2 [] with
        | some (g1, rest) =>
          let p := lazyUntilLook rest.length rest []
          some (g1, p.1, p.2)
        | none => none
      | _ => none
  | _ => none

/-- Models `matchAll` of the sub-item regex: capture pairs, left to right. -/
def subItemsScan : Nat → List Char → List (List Char × List Char)
  | 0, _ => []
  | _ + 1, [] => []
  | fuel + 1, c :: rest =>
    match subItemAt (c :: rest) with
    | some (g1, g2, rem) => (g1, g2) :: subItemsScan fuel rem
    | none => subItemsScan fuel rest

/-- All sub-items of a nested-category content. -/
def subItems (cs : List Char) : List (List Char × List Char) := subItemsScan cs.length cs

/-- A rendered point of the generic item: plain text or a bullet run. -/
inductive GPoint where
  | text : List Char → GPoint
  | list : List (List Char) → GPoint
deriving DecidableEq, Repr

/-- Models `trimmedLine.match(/^[-•*]\s+/)`. -/
def genBulletStart (t : List Char) : Bool :=
  match t with
  | g :: w :: _ => bulletGlyphP g && isWS w
  | _ => false

/-- Models `trimmedLine.replace(/^[-•*]\s+/, '')`. -/
def stripBulletHead (t : List Char) : List Char :=
  if genBulletStart t then
    match t with
    | _ :: r => r.drop (wsRunLen r)
    | [] => []
  else t

/-- The line loop of `formatGenericListItem`: accumulates text points and a
current bullet run; a non-blank line after bullets is appended to the last
bullet. -/
def gpFold : List (List Char) → List GPoint → List (List Char) → List GPoint × List (List Char)
  | [], bps, cur => (bps, cur)
  | l :: ls, bps, cur =>
    let t := trimJS l
    if genBulletStart t then gpFold ls bps (cur ++ [stripBulletHead t])
    else if t ≠ [] ∧ cur ≠ [] then
      gpFold ls bps (cur.dropLast ++ [cur.getLastD [] ++ ' ' :: t])
    else if t ≠ [] then gpFold ls (bps ++ [.text t]) cur
    else gpFold ls bps cur

/-- Bullet points of the generic item, with a trailing bullet run flushed. -/
def genPoints (remaining : List Char) : List GPoint :=
  let p := gpFold (splitNL remaining) [] []
  p.1 ++ (if p.2 ≠ [] then [.list p.2] else [])

/-- Lazy search within a line for the shortest (possibly empty) capture up
to the next occurrence of `delim` (the `(.*?)` of `/\*\*(.*?)\*\*/`; the dot
matches no LineTerminator). -/
def lazyUntil0 (delim : List Char) : List Char → Option (List Char × List Char)
  | [] => none
  | c :: t =>
    if delim.isPrefixOf (c :: t) then some ([], (c :: t).drop delim.length)
    else if isLineTerm c then none
    else (lazyUntil0 delim t).map (fun p => (c :: p.1, p.2))

/-- Models `content.match(/\*\*(.*?)\*\*/g)`: full match strings of the lazy bold
regex (the capture may be empty). -/
def boldLazyScan : Nat → List Char → List (List Char)
  | 0, _ => []
  | _ + 1, [] => []
  | fuel + 1, '*' :: '*' :: rest =>
    (match lazyUntil0 (S "**") rest with
     | some (content, rem) => (S "**" ++ content ++ S "**") :: boldLazyScan fuel rem
     | none => boldLazyScan fuel ('*' :: rest))
  | fuel + 1, _ :: rest => boldLazyScan fuel rest

/-- All lazy bold matches of a content string. -/
def boldLazyMatches (cs : List Char) : List (List Char) := boldLazyScan cs.length cs

/-- One match of `/\s+and\s+/` at a position: consumed length. -/
def andAt (cs : List Char) : Option Nat :=
  let k := wsRunLen cs
  if k = 0 then none
  else
    match cs.drop k with
    | 'a' :: 'n' :: 'd' :: r =>
      let k2 := wsRunLen r
      if k2 = 0 then none else some (k + 3 + k2)
    | _ => none

/-- Models `.replace(/\s+and\s+/g, ' ')`. -/
def andCollapseScan : Nat → List Char → List Char
  | 0, cs => cs
  | _ + 1, [] => []
  | fuel + 1, c :: rest =>
    match andAt (c :: rest) with
    | some consumed => ' ' :: andCollapseScan fuel ((c :: rest).drop consumed)
    | none => c :: andCollapseScan fuel rest

/-- Global collapse of whitespace-delimited `and`. -/
def andCollapse (cs : List Char) : List Char := andCollapseScan cs.length cs

/-- Title, remaining content and bold flag of the generic fallback path. -/
def genericTitleSplit (content : List Char) : List Char × List Char × Bool :=
  let bms := boldLazyMatches content
  if bms ≠ [] then
    let title0 := joinAnd (bms.map (fun m => trimJS (stripDblStars m)))
    let remaining := trimJS (andCollapse (bms.foldl (fun acc m => replaceFirst m [] acc) content))
    let title := if title0.getLast? = some ':' then title0.dropLast else title0
    (title, remaining, true)
  else
    let lines := (splitNL content).filter (fun l => trimJS l ≠ [])
    match lines with
    | l₁ :: l₂ :: ls => (trimJS l₁, trimJS (List.intercalate ['\n'] (l₂ :: ls)), false)
    | _ => ([], content, false)

/-- Rendered sub-item of a nested-category generic list item. -/
def subItemHtml (colors : Palette) (p : List Char × List Char) : List Char :=
  S "\n          <div class=\"sub-item my-2\">\n            <p class=\"font-medium\" style=\"color: " ++
  colors.foreground ++ S ";\">\n              <span style=\"color: " ++ colors.accent ++
  S ";\">" ++ trimJS p.1 ++ S ":</span> " ++ trimJS p.2 ++
  S "\n            </p>\n          </div>\n        "

/-- Rendered point of the flat generic list item. -/
def gPointHtml (p : GPoint) : List Char :=
  match p with
  | .list items =>
    S "\n                <ul class=\"list-disc pl-4 my-2 space-y-1 text-[14px]\">\n                  " ++
    (items.map (fun it => S "<li>" ++ it ++ S "</li>")).flatten ++
    S "\n                </ul>\n              "
  | .text content => S "<p class=\"mb-2\">" ++ content ++ S "</p>"

/-- Models `formatGenericListItem`. -/
def formatGenericListItem (item : ListItem) (colors : Palette) (_config : FormatConfig) : List Char :=
  let nested :=
    match scanFirst mainCatAt item.content with
    | some (g1, g2) =>
      let subs := subItems (trimJS g2)
      if subs ≠ [] then some (trimJS g1, subs) else none
    | none => none
  match nested with
  | some (mainHeading, subs) =>
    S "\n        <div class=\"list-item mb-4\">\n          <h3 class=\"text-lg font-semibold\" style=\"color: " ++
    colors.accent ++ S ";\">\n            " ++ item.number ++ S ". " ++ mainHeading ++
    S "\n          </h3>\n          <div class=\"pl-6 mt-2 leading-relaxed text-[14px]\" style=\"color: " ++
    colors.foreground ++ S ";\">\n            " ++
    (subs.map (subItemHtml colors)).flatten ++
    S "\n          </div>\n        </div>\n      "
  | none =>
    let t := genericTitleSplit item.content
    let title := t.1
    let remainingContent := t.2.1
    let hasBoldTitle := t.2.2
    let points := genPoints remainingContent
    if !hasBoldTitle && title = [] then
      S "\n      <div class=\"list-item mb-3\">\n        <p class=\"pl-1 leading-relaxed\" style=\"color: " ++
      colors.foreground ++ S ";\">\n          <span style=\"color: " ++ colors.accent ++
      S "; font-weight: 500;\">" ++ item.number ++ S ".</span> " ++ remainingContent ++
      S "\n        </p>\n      </div>\n    "
    else
      S "\n      <div class=\"list-item mb-4\">\n        <h3 class=\"text-lg font-semibold\" style=\"color: " ++
      colors.accent ++ S ";\">\n          " ++ item.number ++ S ". " ++ title ++
      S "\n        </h3>\n        <div class=\"pl-6 mt-2 leading-relaxed\" style=\"color: " ++
      colors.foreground ++ S ";\">\n          " ++
      (points.map gPointHtml).flatten ++
      S "\n        </div>\n      </div>\n    "

/-- Models `formatNumberedList`: bold-numbers variant first, then the simple
variant, then the general variant with a plain-text fallback. -/
def formatNumberedList (response : List Char) (isProductList : Bool) (colors : Palette)
    (config : FormatConfig) : List Char :=
  let introText := introOf response
  if boldDetect response then formatBoldNumbersList response introText colors config
  else if hasSimpleList response then formatSimpleNumberedList response colors config
  else
    let allMatches := numMatches response
    if allMatches = [] then formatPlainText response colors config
    else
      let items := buildItems response allMatches
      let conclusionText := generalConclusion response allMatches items
      let formattedItems :=
        (items.map (fun it =>
          if isProductList then formatProductItem it colors config
          else formatGenericListItem it colors config)).flatten
      wrapInContainer (nlContent introText formattedItems conclusionText) colors config

/-- Models `formatMessage`: empty-input short circuit, option merge, theme
resolution, newline cleaning, classification and dispatch. -/
def formatMessage (rawData : List Char) (options : JsOptions) : List Char :=
  if rawData = [] then []
  else
    let config := mergeConfig options
    let colors := resolveColors config
    let cleanData := cleanNewlines rawData
    if hasNumMarker cleanData then
      formatNumberedList cleanData (isProductLike cleanData) colors config
    else if hasBulletGlyph cleanData then formatBulletPoints cleanData colors config
    else if hasHeadingLine cleanData then formatMarkdown cleanData colors config
    else formatPlainText cleanData colors config

/-- The JavaScript call boundary: `null`/`undefined` behave like the empty
string under the `!rawData` check. -/
def formatMessageJS (rawData : Option (List Char)) (options : JsOptions) : List Char :=
  formatMessage (rawData.getD []) options

/-- The default (empty) options object. -/
def defaultOpts : JsOptions := {}

theorem hasNumMarker_iff (cs : List Char) :
    hasNumMarker cs = true ↔
      ∃ p d w s, cs = p ++ d :: '.' :: w :: s ∧ d.isDigit = true ∧ isWS w = true := by
  induction cs with
  | nil =>
    constructor
    · intro h; simp [hasNumMarker] at h
    · rintro ⟨p, d, w, s, h, -, -⟩
      have hl := congrArg List.length h
      simp [List.length_append] at hl
      omega
  | cons a t ih =>
    match t, ih with
    | [], _ =>
      constructor
      · intro h; simp [hasNumMarker] at h
      · rintro ⟨p, d, w, s, h, -, -⟩
        have hl := congrArg List.length h
        simp [List.length_append] at hl
        omega
    | [b], _ =>
      constructor
      · intro h; simp [hasNumMarker] at h
      · rintro ⟨p, d, w, s, h, -, -⟩
        have hl := congrArg List.length h
        simp [List.length_append] at hl
        omega
    | b :: c :: rest, ih =>
      constructor
      · intro h
        simp only [hasNumMarker, Bool.or_eq_true, Bool.and_eq_true, decide_eq_true_eq] at h
        rcases h with ⟨⟨hd, hdot⟩, hw⟩ | h
        · exact ⟨[], a, c, rest, by simp [hdot], hd, hw⟩
        · obtain ⟨p, d, w, s, hEq, hd, hw⟩ := ih.mp h
          exact ⟨a :: p, d, w, s, by simp [hEq], hd, hw⟩
      · rintro ⟨p, d, w, s, hEq, hd, hw⟩
        simp only [hasNumMarker, Bool.or_eq_true, Bool.and_eq_true, decide_eq_true_eq]
        match p, hEq with
        | [], hEq =>
          simp only [List.nil_append, List.cons.injEq] at hEq
          obtain ⟨h1, h2, h3, -⟩ := hEq
          exact Or.inl ⟨⟨h1 ▸ hd, by simp [h2]⟩, h3 ▸ hw⟩
        | x :: p', hEq =>
          simp only [List.cons_append, List.cons.injEq] at hEq
          exact Or.inr (ih.mpr ⟨p', d, w, s, hEq.2, hd, hw⟩)
theorem hasBulletGlyph_iff (cs : List Char) :
    hasBulletGlyph cs = true ↔
      (∃ p s, cs = p ++ '•' :: s) ∨
      (∃ p g w s, cs = p ++ g :: w :: s ∧ (g = '*' ∨ g = '-') ∧ isWS w = true) := by
  induction cs with
  | nil =>
    constructor
    · intro h; simp [hasBulletGlyph] at h
    · rintro (⟨p, s, h⟩ | ⟨p, g, w, s, h, -, -⟩) <;>
      · have hl := congrArg List.length h
        simp [List.length_append] at hl
        omega
  | cons c rest ih =>
    constructor
    · intro h
      simp only [hasBulletGlyph, Bool.or_eq_true, decide_eq_true_eq] at h
      rcases h with (hdot | hmid) | hrec
      · exact Or.inl ⟨[], rest, by simp [hdot]⟩
      · cases rest with
        | nil => simp at hmid
        | cons w r' =>
          simp only [Bool.and_eq_true, Bool.or_eq_true, decide_eq_true_eq] at hmid
          exact Or.inr ⟨[], c, w, r', rfl, hmid.1, hmid.2⟩
      · rcases ih.mp hrec with ⟨p, s, hEq⟩ | ⟨p, g, w, s, hEq, hg, hw⟩
        · exact Or.inl ⟨c :: p, s, by simp [hEq]⟩
        · exact Or.inr ⟨c :: p, g, w, s, by simp [hEq], hg, hw⟩
    · intro h
      simp only [hasBulletGlyph, Bool.or_eq_true, decide_eq_true_eq]
      rcases h with ⟨p, s, hEq⟩ | ⟨p, g, w, s, hEq, hg, hw⟩
      · match p, hEq with
        | [], hEq =>
          simp only [List.nil_append, List.cons.injEq] at hEq
          exact Or.inl (Or.inl hEq.1)
        | x :: p', hEq =>
          simp only [List.cons_append, List.cons.injEq] at hEq
          exact Or.inr (ih.mpr (Or.inl ⟨p', s, hEq.2⟩))
      · match p, hEq with
        | [], hEq =>
          simp only [List.nil_append, List.cons.injEq] at hEq
          obtain ⟨hgc, hrest⟩ := hEq
          subst hrest
          subst hgc
          refine Or.inl (Or.inr ?_)
          simp only [Bool.and_eq_true, Bool.or_eq_true, decide_eq_true_eq]
          exact ⟨hg, hw⟩
        | x :: p', hEq =>
          simp only [List.cons_append, List.cons.injEq] at hEq
          exact Or.inr (ih.mpr (Or.inr ⟨p', g, w, s, hEq.2, hg, hw⟩))
/-- C1: For every input string and options object, `formatMessage` terminates
and returns a string, and feeding its own HTML output back in also returns a
string (round-trip formatting is total; the embedding is a total function, so
no exception can surface from any code path). -/
theorem claim_C1 :
    ∀ (raw : List Char) (opts : JsOptions),
      (∃ out, formatMessage raw opts = out) ∧
      (∃ out2, formatMessage (formatMessage raw opts) opts = out2) :=
  fun _ _ => ⟨⟨_, rfl⟩, ⟨_, rfl⟩⟩

/-- C2: empty, null or undefined input makes `formatMessage` return exactly
the empty string, with no container wrapper emitted. -/
theorem claim_C2 :
    ∀ opts : JsOptions,
      formatMessageJS none opts = [] ∧
      formatMessageJS (some []) opts = [] ∧
      formatMessage [] opts = [] ∧
      isSubstr (S "message-container") (formatMessageJS none opts) = false := by
  intro opts
  refine ⟨rfl, rfl, rfl, ?_⟩
  rfl

/-- C3: classification picks exactly one shape through the fixed priority
chain (numbered-list pattern first, then bullets, then headings, else plain
text), the numbered-list pattern is digits followed by a dot and whitespace,
and `formatMessage` runs exactly the formatter of the selected shape. -/
theorem claim_C3 :
    (∀ t, (classify t = .NumberedList ↔ hasNumMarker t = true) ∧
          (classify t = .BulletList ↔ (hasNumMarker t = false ∧ hasBulletGlyph t = true)) ∧
          (classify t = .Heading ↔
            (hasNumMarker t = false ∧ hasBulletGlyph t = false ∧ hasHeadingLine t = true)) ∧
          (classify t = .PlainText ↔
            (hasNumMarker t = false ∧ hasBulletGlyph t = false ∧ hasHeadingLine t = false))) ∧
    (∀ t, hasNumMarker t = true ↔
        ∃ p d w s, t = p ++ d :: '.' :: w :: s ∧ d.isDigit = true ∧ isWS w = true) ∧
    (∀ (raw : List Char) (opts : JsOptions), raw ≠ [] →
      formatMessage raw opts =
        match classify (cleanNewlines raw) with
        | .NumberedList =>
          formatNumberedList (cleanNewlines raw) (isProductLike (cleanNewlines raw))
            (resolveColors (mergeConfig opts)) (mergeConfig opts)
        | .BulletList =>
          formatBulletPoints (cleanNewlines raw) (resolveColors (mergeConfig opts)) (mergeConfig opts)
        | .Heading =>
          formatMarkdown (cleanNewlines raw) (resolveColors (mergeConfig opts)) (mergeConfig opts)
        | .PlainText =>
          formatPlainText (cleanNewlines raw) (resolveColors (mergeConfig opts)) (mergeConfig opts)) := by
  refine ⟨?_, hasNumMarker_iff, ?_⟩
  · intro t
    refine ⟨?_, ?_, ?_, ?_⟩ <;>
      (unfold classify; split_ifs <;> simp_all)
  · intro raw opts hraw
    unfold formatMessage classify
    rw [if_neg hraw]
    split_ifs <;> simp_all

/-- Witness for C3 at a concrete numbered input. -/
theorem claim_C3_witness :
    formatMessage (S "1. a") defaultOpts =
      formatNumberedList (cleanNewlines (S "1. a")) (isProductLike (cleanNewlines (S "1. a")))
        (resolveColors (mergeConfig defaultOpts)) (mergeConfig defaultOpts) := by
  have h := claim_C3.2.2 (S "1. a") defaultOpts (by decide)
  rw [h]
  rfl

/-- C9: the theme resolver is total: any theme other than `"dark"` yields the
light palette, `"dark"` yields the dark palette, and in both cases the accent
field is the configured accent colour unchanged. -/
theorem claim_C9 :
    ∀ config : FormatConfig,
      (resolveColors config).accent = config.accentColor ∧
      (config.theme ≠ S "dark" → resolveColors config = lightPalette config.accentColor) ∧
      (config.theme = S "dark" → resolveColors config = darkPalette config.accentColor) := by
  intro config
  by_cases hd : config.theme = S "dark"
  · refine ⟨?_, fun h => absurd hd h, fun _ => ?_⟩ <;>
      simp [resolveColors, hd, darkPalette]
  · refine ⟨?_, fun _ => ?_, fun h => absurd h hd⟩ <;>
      simp [resolveColors, hd, lightPalette]

/-- Witness for C9 at a concrete unrecognised theme. -/
theorem claim_C9_witness :
    resolveColors ⟨S "solarized", S "#ff8800", S "font-mono", false⟩ =
      lightPalette (S "#ff8800") :=
  (claim_C9 _).2.1 (by decide)

/-- C10: the bullet test looks for a glyph anywhere in the text (a `•`, or a
`*` or `-` immediately followed by whitespace), so any input without a
numbered marker but with such a glyph — including plain prose with a closing
`**bold**` span followed by a space, or a free-standing hyphen — dispatches
to the bullet formatter. -/
theorem claim_C10 :
    (∀ t, hasBulletGlyph t = true ↔
        ((∃ p s, t = p ++ '•' :: s) ∨
         (∃ p g w s, t = p ++ g :: w :: s ∧ (g = '*' ∨ g = '-') ∧ isWS w = true))) ∧
    (∀ (raw : List Char) (opts : JsOptions), raw ≠ [] →
      hasNumMarker (cleanNewlines raw) = false →
      hasBulletGlyph (cleanNewlines raw) = true →
      formatMessage raw opts =
        formatBulletPoints (cleanNewlines raw) (resolveColors (mergeConfig opts))
          (mergeConfig opts)) ∧
    classify (S "This is **bold** text in prose") = .BulletList ∧
    classify (S "a - b") = .BulletList := by
  refine ⟨hasBulletGlyph_iff, ?_, by decide, by decide⟩
  intro raw opts hraw h1 h2
  unfold formatMessage
  rw [if_neg hraw]
  simp only [h1, h2, Bool.false_eq_true, if_false, if_true]

/-- Witness for C10: prose with a bold span goes to the bullet formatter. -/
theorem claim_C10_witness :
    formatMessage (S "This is **bold** text in prose") defaultOpts =
      formatBulletPoints (cleanNewlines (S "This is **bold** text in prose"))
        (resolveColors (mergeConfig defaultOpts)) (mergeConfig defaultOpts) :=
  claim_C10.2.1 _ defaultOpts (by decide) (by decide) (by decide)
/-- Is the first occurrence of `a` strictly before that of `b`? -/
def idxLt (a b hay : List Char) : Bool :=
  match firstIdx a hay, firstIdx b hay with
  | some i, some j => decide (i < j)
  | _, _ => false

/-- Modelled from the spec: per-line heading substitution in
longest-prefix-first order — `###` checked before `##` before `#` — the
comparison point for the source's substitution chain. -/
def mdHeadingLongestFirst (colors : Palette) (l : List Char) : List Char :=
  if l.take 4 = ['#', '#', '#', ' '] ∧ l.drop 4 ≠ [] then
    S "<h3 class=\"text-lg font-bold mb-2 mt-4\" style=\"color: " ++ colors.accent ++
    S ";\">" ++ l.drop 4 ++ S "</h3>"
  else if l.take 3 = ['#', '#', ' '] ∧ l.drop 3 ≠ [] then
    S "<h2 class=\"text-xl font-bold mb-3 mt-5\" style=\"color: " ++ colors.accent ++
    S ";\">" ++ l.drop 3 ++ S "</h2>"
  else if l.take 2 = ['#', ' '] ∧ l.drop 2 ≠ [] then
    S "<h1 class=\"text-2xl font-bold mb-4 mt-6\" style=\"color: " ++ colors.accent ++
    S ";\">" ++ l.drop 2 ++ S "</h1>"
  else l

/-- The three heading prefixes are mutually exclusive (the mandatory space
after the hash run decides which one can match). -/
theorem headingPrefix_excl_12 {l : List Char}
    (h1 : l.take 2 = ['#', ' ']) (h2 : l.take 3 = ['#', '#', ' ']) : False := by
  have := congrArg (List.take 2) h2
  rw [List.take_take] at this
  simp [h1] at this

theorem headingPrefix_excl_13 {l : List Char}
    (h1 : l.take 2 = ['#', ' ']) (h3 : l.take 4 = ['#', '#', '#', ' ']) : False := by
  have := congrArg (List.take 2) h3
  rw [List.take_take] at this
  simp [h1] at this

theorem headingPrefix_excl_23 {l : List Char}
    (h2 : l.take 3 = ['#', '#', ' ']) (h3 : l.take 4 = ['#', '#', '#', ' ']) : False := by
  have := congrArg (List.take 3) h3
  rw [List.take_take] at this
  simp [h2] at this

/-- The source's heading chain (`#`, then `##`, then `###`) agrees with the
spec's longest-prefix-first substitution on every line. -/
theorem mdHeadingChain (colors : Palette) (l : List Char) :
    mdH3 colors (mdH2 colors (mdH1 colors l)) = mdHeadingLongestFirst colors l := by
  by_cases c1 : l.take 2 = ['#', ' '] ∧ l.drop 2 ≠ []
  · have n2 : ¬(l.take 3 = ['#', '#', ' '] ∧ l.drop 3 ≠ []) :=
      fun h => headingPrefix_excl_12 c1.1 h.1
    have n3 : ¬(l.take 4 = ['#', '#', '#', ' '] ∧ l.drop 4 ≠ []) :=
      fun h => headingPrefix_excl_13 c1.1 h.1
    have e1 : mdH1 colors l =
        S "<h1 class=\"text-2xl font-bold mb-4 mt-6\" style=\"color: " ++ colors.accent ++
        S ";\">" ++ l.drop 2 ++ S "</h1>" := by
      simp only [mdH1, if_pos c1]
    have e2 : mdH2 colors (mdH1 colors l) = mdH1 colors l := by
      rw [mdH2, if_neg]
      rintro ⟨hx, -⟩
      rw [e1] at hx
      simp only [List.append_assoc] at hx
      rw [List.take_append_of_le_length (by decide)] at hx
      exact absurd hx (by decide)
    have e3 : mdH3 colors (mdH2 colors (mdH1 colors l)) = mdH2 colors (mdH1 colors l) := by
      rw [mdH3, if_neg]
      rintro ⟨hx, -⟩
      rw [e2, e1] at hx
      simp only [List.append_assoc] at hx
      rw [List.take_append_of_le_length (by decide)] at hx
      exact absurd hx (by decide)
    rw [e3, e2, e1, mdHeadingLongestFirst, if_neg n3, if_neg n2, if_pos c1]
  · by_cases c2 : l.take 3 = ['#', '#', ' '] ∧ l.drop 3 ≠ []
    · have n3 : ¬(l.take 4 = ['#', '#', '#', ' '] ∧ l.drop 4 ≠ []) :=
        fun h => headingPrefix_excl_23 c2.1 h.1
      have e1 : mdH1 colors l = l := by simp only [mdH1, if_neg c1]
      have e2 : mdH2 colors l =
          S "<h2 class=\"text-xl font-bold mb-3 mt-5\" style=\"color: " ++ colors.accent ++
          S ";\">" ++ l.drop 3 ++ S "</h2>" := by
        simp only [mdH2, if_pos c2]
      have e3 : mdH3 colors (mdH2 colors l) = mdH2 colors l := by
        rw [mdH3, if_neg]
        rintro ⟨hx, -⟩
        rw [e2] at hx
        simp only [List.append_assoc] at hx
        rw [List.take_append_of_le_length (by decide)] at hx
        exact absurd hx (by decide)
      rw [e1, e3, e2, mdHeadingLongestFirst, if_neg n3, if_pos c2]
    · by_cases c3 : l.take 4 = ['#', '#', '#', ' '] ∧ l.drop 4 ≠ []
      · have e1 : mdH1 colors l = l := by simp only [mdH1, if_neg c1]
        have e2 : mdH2 colors l = l := by simp only [mdH2, if_neg c2]
        have e3 : mdH3 colors l =
            S "<h3 class=\"text-lg font-bold mb-2 mt-4\" style=\"color: " ++ colors.accent ++
            S ";\">" ++ l.drop 4 ++ S "</h3>" := by
          simp only [mdH3, if_pos c3]
        rw [e1, e2, e3, mdHeadingLongestFirst, if_pos c3]
      · have e1 : mdH1 colors l = l := by simp only [mdH1, if_neg c1]
        have e2 : mdH2 colors l = l := by simp only [mdH2, if_neg c2]
        have e3 : mdH3 colors l = l := by simp only [mdH3, if_neg c3]
        rw [e1, e2, e3, mdHeadingLongestFirst, if_neg c3, if_neg c2, if_neg c1]

/-- C8: the heading substitution chain is equivalent to longest-prefix-first
checking on every line, so `## text` becomes a level-2 heading and never a
level-1 heading, and `# Title` followed by a blank line and `Body text`
renders a level-1 heading fragment followed by a paragraph fragment in that
order. -/
theorem claim_C8 :
    (∀ (colors : Palette) (l : List Char),
        mdH3 colors (mdH2 colors (mdH1 colors l)) = mdHeadingLongestFirst colors l) ∧
    (isSubstr (S "<h2") (formatMessage (S "## text") defaultOpts) = true ∧
     isSubstr (S "<h1") (formatMessage (S "## text") defaultOpts) = false) ∧
    (isSubstr
        (S "<h1 class=\"text-2xl font-bold mb-4 mt-6\" style=\"color: #000;\">Title</h1>")
        (formatMessage (S "# Title\n\nBody text") defaultOpts) = true ∧
     isSubstr
        (S "<p class=\"mb-4 leading-relaxed\" style=\"color: #111827;\">Body text</p>")
        (formatMessage (S "# Title\n\nBody text") defaultOpts) = true ∧
     idxLt (S "<h1") (S "<p class")
        (formatMessage (S "# Title\n\nBody text") defaultOpts) = true) :=
  ⟨mdHeadingChain, ⟨by decide, by decide⟩, ⟨by decide, by decide, by decide⟩⟩
/-- Dropping the digit prefix length is dropping while digits. -/
theorem drop_takeWhile_length (l : List Char) (p : Char → Bool) :
    l.drop (l.takeWhile p).length = l.dropWhile p := by
  have h := List.drop_left (l.takeWhile p) (l.dropWhile p)
  rw [List.takeWhile_append_dropWhile] at h
  exact h

/-- Anatomy of a successful `/(\d+)\.\s+/` match: the label is the maximal
digit run at the position, it is non-empty, a dot follows it, and the match
consumes at least the label, the dot and one whitespace character. -/
theorem numMatchAt_some {cs ds : List Char} {mlen : Nat}
    (h : numMatchAt cs = some (ds, mlen)) :
    ds = cs.takeWhile Char.isDigit ∧ ds ≠ [] ∧
    (cs.drop ds.length).head? = some '.' ∧ ds.length + 2 ≤ mlen := by
  simp only [numMatchAt] at h
  split_ifs at h with h1 h2 h3
  · simp only [Option.some.injEq, Prod.mk.injEq] at h
    obtain ⟨hds, hml⟩ := h
    subst hds
    refine ⟨rfl, h1, ?_, ?_⟩
    · rw [drop_takeWhile_length]; exact h2
    · omega

/-- Every element of a `numMatchesAux` scan lies at or after the start
index, carries the verbatim digit run found at its index, and is followed
by a dot there. -/
theorem numMatchesAux_mem :
    ∀ (fuel : Nat) (cs : List Char) (i : Nat) (e : Nat × List Char × Nat),
      e ∈ numMatchesAux fuel cs i →
      i ≤ e.1 ∧ (cs.drop (e.1 - i)).takeWhile Char.isDigit = e.2.1 ∧ e.2.1 ≠ [] ∧
        ((cs.drop (e.1 - i)).drop e.2.1.length).head? = some '.' := by
  intro fuel
  induction fuel with
  | zero => intro cs i e h; simp [numMatchesAux] at h
  | succ fuel ih =>
    intro cs i e h
    cases cs with
    | nil => simp [numMatchesAux] at h
    | cons c rest =>
      rw [numMatchesAux] at h
      cases hm : numMatchAt (c :: rest) with
      | none =>
        rw [hm] at h
        have hr := ih rest (i + 1) e h
        have h1 : i + 1 ≤ e.1 := hr.1
        have hdrop : (c :: rest).drop (e.1 - i) = rest.drop (e.1 - (i + 1)) := by
          have hx : e.1 - i = (e.1 - (i + 1)) + 1 := by omega
          rw [hx, List.drop_succ_cons]
        exact ⟨by omega, by rw [hdrop]; exact hr.2.1, hr.2.2.1, by rw [hdrop]; exact hr.2.2.2⟩
      | some v =>
        rw [hm] at h
        obtain ⟨ds, mlen⟩ := v
        rcases List.mem_cons.mp h with he | ht
        · subst he
          obtain ⟨hds, hne, hdot, -⟩ := numMatchAt_some hm
          simp only [Nat.sub_self, List.drop_zero]
          exact ⟨le_rfl, hds.symm, hne, hdot⟩
        · have hr := ih ((c :: rest).drop mlen) (i + mlen) e ht
          have h1 : i + mlen ≤ e.1 := hr.1
          have hdrop : (c :: rest).drop (e.1 - i) =
              ((c :: rest).drop mlen).drop (e.1 - (i + mlen)) := by
            rw [List.drop_drop]
            congr 1
            omega
          exact ⟨by omega, by rw [hdrop]; exact hr.2.1, hr.2.2.1, by rw [hdrop]; exact hr.2.2.2⟩

/-- The scan produces matches at strictly increasing indices. -/
theorem numMatchesAux_sorted :
    ∀ (fuel : Nat) (cs : List Char) (i : Nat),
      List.Pairwise (fun a b => a.1 < b.1) (numMatchesAux fuel cs i) := by
  intro fuel
  induction fuel with
  | zero => intro cs i; simp [numMatchesAux]
  | succ fuel ih =>
    intro cs i
    cases cs with
    | nil => simp [numMatchesAux]
    | cons c rest =>
      rw [numMatchesAux]
      cases hm : numMatchAt (c :: rest) with
      | none => exact ih rest (i + 1)
      | some v =>
        obtain ⟨ds, mlen⟩ := v
        refine List.Pairwise.cons ?_ (ih _ _)
        intro e he
        have hge := (numMatchesAux_mem fuel ((c :: rest).drop mlen) (i + mlen) e he).1
        have hml := (numMatchAt_some hm).2.2.2
        have hne := (numMatchAt_some hm).2.1
        have : 1 ≤ ds.length := List.length_pos.mpr hne
        omega
/-- C5: the general numbered-list scan finds markers at strictly increasing
positions (items render in source order), each label is the verbatim digit
string at its marker followed by the dot, and for each segmenter variant a
concrete `1`,`2`,`3` input yields labels in that order with the three item
contents appearing left to right in the rendered output. -/
theorem claim_C5 :
    (∀ cs, List.Pairwise (fun a b => a.1 < b.1) (numMatches cs)) ∧
    (∀ cs (e : Nat × List Char × Nat), e ∈ numMatches cs →
        (cs.drop e.1).takeWhile Char.isDigit = e.2.1 ∧ e.2.1 ≠ [] ∧
        ((cs.drop e.1).drop e.2.1.length).head? = some '.') ∧
    ((boldItems (S "Top 3. list:\n**1.**\nAnt\n**2.**\nBee\n**3.**\nCow")).map ListItem.number =
        [S "1", S "2", S "3"] ∧
     idxLt (S "Ant") (S "Bee")
       (formatMessage (S "Top 3. list:\n**1.**\nAnt\n**2.**\nBee\n**3.**\nCow") defaultOpts) = true ∧
     idxLt (S "Bee") (S "Cow")
       (formatMessage (S "Top 3. list:\n**1.**\nAnt\n**2.**\nBee\n**3.**\nCow") defaultOpts) = true) ∧
    ((simpleMatches (S "1. Ant\n2. Bee\n3. Cow")).map (fun m => m.1.number) =
        [S "1", S "2", S "3"] ∧
     idxLt (S "Ant") (S "Bee") (formatMessage (S "1. Ant\n2. Bee\n3. Cow") defaultOpts) = true ∧
     idxLt (S "Bee") (S "Cow") (formatMessage (S "1. Ant\n2. Bee\n3. Cow") defaultOpts) = true) ∧
    ((numMatches (S "Our **top** options:\n1. Ant chair\n2. Bee sofa\n3. Cow lamp")).map
        (fun e => e.2.1) = [S "1", S "2", S "3"] ∧
     idxLt (S "Ant chair") (S "Bee sofa")
       (formatMessage (S "Our **top** options:\n1. Ant chair\n2. Bee sofa\n3. Cow lamp")
         defaultOpts) = true ∧
     idxLt (S "Bee sofa") (S "Cow lamp")
       (formatMessage (S "Our **top** options:\n1. Ant chair\n2. Bee sofa\n3. Cow lamp")
         defaultOpts) = true) := by
  refine ⟨fun cs => numMatchesAux_sorted cs.length cs 0, ?_,
    ⟨by decide, by decide, by decide⟩, ⟨by decide, by decide, by decide⟩,
    ⟨by decide, by decide, by decide⟩⟩
  intro cs e he
  have h := numMatchesAux_mem cs.length cs 0 e he
  simpa using h.2

/-- Witness for C5 at a concrete marker of a concrete input. -/
theorem claim_C5_witness :
    (0, S "1", 3) ∈ numMatches (S "1. a 2. b") ∧
    ((S "1. a 2. b").drop 0).takeWhile Char.isDigit = S "1" :=
  ⟨by decide, (claim_C5.2.1 _ (0, S "1", 3) (by decide)).1⟩
/-- A position where the detection regex of the bold-numbers variant
matches also yields an extraction match: the detection pattern's closing
`**` is the extraction alternation's first branch, and the two tails have
identical matchability. -/
theorem boldDetectAt_extract {cs : List Char} (h : boldDetectAt cs = true) :
    boldExtractAt cs ≠ none := by
  unfold boldDetectAt at h
  unfold boldExtractAt
  cases hp : boldMarkerParse cs with
  | none => rw [hp] at h; cases h
  | some v =>
    obtain ⟨ds, rest3⟩ := v
    simp only [hp] at h ⊢
    split_ifs at h with hstar
    rw [if_pos hstar]
    unfold boldTailExtract
    cases hk : tailCap (rest3.drop 2) with
    | none => rw [hk] at h; cases h
    | some k => simp

/-- When the detection pattern matches somewhere, the extraction loop
produces at least one item. -/
theorem boldScan_nonempty :
    ∀ (fuel : Nat) (cs : List Char), cs.length ≤ fuel →
      anySuffix boldDetectAt cs = true → boldItemsScan fuel cs ≠ [] := by
  intro fuel
  induction fuel with
  | zero =>
    intro cs hl h
    have hcs : cs = [] := List.eq_nil_of_length_eq_zero (Nat.le_zero.mp hl)
    subst hcs
    simp [anySuffix, boldDetectAt, boldMarkerParse] at h
  | succ fuel ih =>
    intro cs hl h
    cases cs with
    | nil => simp [anySuffix, boldDetectAt, boldMarkerParse] at h
    | cons c rest =>
      rw [boldItemsScan]
      cases he : boldExtractAt (c :: rest) with
      | some v =>
        obtain ⟨ds, content, rem⟩ := v
        simp
      | none =>
        have hd : boldDetectAt (c :: rest) = false := by
          by_contra hx
          exact boldDetectAt_extract (eq_true_of_ne_false hx) he
        rw [anySuffix, hd, Bool.false_or] at h
        exact ih rest (by simpa using hl) h

/-- A true `boldDetect` implies that the bold-numbers extraction is non-empty. -/
theorem boldItems_nonempty {cs : List Char} (h : boldDetect cs = true) :
    boldItems cs ≠ [] :=
  boldScan_nonempty cs.length cs le_rfl h

/-- C4: the three numbered-list sub-variants are tried in order — the
bold-numbers detection first, then the simple variant, then the general
variant — each failure falling through to the next, and the plain-text
formatter runs only when no variant yields items: the general variant falls
back to plain text exactly when it finds no markers, and whenever the
bold-numbers variant is selected its extraction is non-empty, so its own
internal plain-text fallback is never taken. -/
theorem claim_C4 :
    ∀ (response : List Char) (pf : Bool) (colors : Palette) (config : FormatConfig),
      (boldDetect response = true →
        formatNumberedList response pf colors config =
          formatBoldNumbersList response (introOf response) colors config ∧
        boldItems response ≠ []) ∧
      (boldDetect response = false → hasSimpleList response = true →
        formatNumberedList response pf colors config =
          formatSimpleNumberedList response colors config) ∧
      (boldDetect response = false → hasSimpleList response = false →
        numMatches response = [] →
        formatNumberedList response pf colors config =
          formatPlainText response colors config) ∧
      (∀ intro0, boldItems response = [] →
        formatBoldNumbersList response intro0 colors config =
          formatPlainText response colors config) := by
  intro response pf colors config
  refine ⟨?_, ?_, ?_, ?_⟩
  · intro h
    refine ⟨?_, boldItems_nonempty h⟩
    unfold formatNumberedList
    rw [if_pos h]
  · intro h1 h2
    unfold formatNumberedList
    rw [if_neg (by simp [h1]), if_pos h2]
  · intro h1 h2 h3
    unfold formatNumberedList
    rw [if_neg (by simp [h1]), if_neg (by simp [h2]), if_pos h3]
  · intro intro0 h
    unfold formatBoldNumbersList
    rw [if_pos h]

/-- Witness for C4 at a concrete bold-numbers input. -/
theorem claim_C4_witness :
    (formatNumberedList (S "**1.**\nAnt") false (lightPalette (S "#000"))
        (mergeConfig defaultOpts) =
      formatBoldNumbersList (S "**1.**\nAnt") (introOf (S "**1.**\nAnt"))
        (lightPalette (S "#000")) (mergeConfig defaultOpts) ∧
     boldItems (S "**1.**\nAnt") ≠ []) ∧
    formatNumberedList (S "1. Ant") false (lightPalette (S "#000")) (mergeConfig defaultOpts) =
      formatSimpleNumberedList (S "1. Ant") (lightPalette (S "#000")) (mergeConfig defaultOpts) :=
  ⟨(claim_C4 (S "**1.**\nAnt") false _ _).1 (by decide),
   (claim_C4 (S "1. Ant") false _ _).2.1 (by decide) (by decide)⟩
/-- Without a backslash, newline cleaning is the identity. -/
theorem cleanNewlines_id : ∀ cs : List Char, '\\' ∉ cs → cleanNewlines cs = cs := by
  intro cs h
  induction cs with
  | nil => rfl
  | cons c rest ih =>
    have hc : c ≠ '\\' := fun hx => h (hx ▸ List.mem_cons_self c rest)
    have hr : '\\' ∉ rest := fun hx => h (List.mem_cons_of_mem c hx)
    rw [cleanNewlines.eq_def]
    split
    · next heq =>
      injection heq with h1 _
      exact absurd h1 hc
    · next heq =>
      injection heq with h1 h2
      subst h1
      subst h2
      rw [ih hr]
    · next heq => cases heq

/-- Splitting a newline-free prefix accumulates it unchanged. -/
theorem splitNLAux_append (l : List Char) :
    ∀ (cs acc : List Char), '\n' ∉ l →
      splitNLAux (l ++ cs) acc = splitNLAux cs (l.reverse ++ acc) := by
  induction l with
  | nil => intro cs acc _; simp
  | cons c t ih =>
    intro cs acc h
    have hc : c ≠ '\n' := fun hx => h (hx ▸ List.mem_cons_self c t)
    rw [List.cons_append, splitNLAux, if_neg hc, ih cs (c :: acc) (fun hx => h (List.mem_cons_of_mem c hx))]
    simp

/-- Splitting with `splitNL` recovers the lines of a newline-join of newline-free lines. -/
theorem splitNL_joinNL : ∀ lines : List (List Char), lines ≠ [] →
    (∀ l ∈ lines, '\n' ∉ l) → splitNL (joinNL lines) = lines := by
  intro lines
  induction lines with
  | nil => intro h; exact absurd rfl h
  | cons l ls ih =>
    intro _ h
    have hl : '\n' ∉ l := h l (List.mem_cons_self l ls)
    cases ls with
    | nil =>
      show splitNLAux (joinNL [l]) [] = [l]
      rw [joinNL]
      rw [show l = l ++ ([] : List Char) by simp, splitNLAux_append l [] [] hl]
      simp [splitNLAux]
    | cons l₂ ls₂ =>
      show splitNLAux (joinNL (l :: l₂ :: ls₂)) [] = l :: l₂ :: ls₂
      have hih := ih (List.cons_ne_nil l₂ ls₂) (fun x hx => h x (List.mem_cons_of_mem l hx))
      rw [joinNL, splitNLAux_append l _ [] hl, splitNLAux, if_pos rfl]
      simp only [List.append_nil, List.reverse_reverse]
      rw [show splitNLAux (joinNL (l₂ :: ls₂)) [] = splitNL (joinNL (l₂ :: ls₂)) from rfl, hih]
      exact List.cons_ne_nil l₂ ls₂

/-- Splitting a LineTerminator-free block at terminators accumulates it
unchanged. -/
theorem splitTermAux_append (l : List Char) :
    ∀ (cs acc : List Char), (∀ c ∈ l, isLineTerm c = false) →
      splitTermAux (l ++ cs) acc = splitTermAux cs (l.reverse ++ acc) := by
  induction l with
  | nil => intro cs acc _; simp
  | cons c t ih =>
    intro cs acc h
    have hc : isLineTerm c = false := h c (List.mem_cons_self c t)
    rw [List.cons_append, splitTermAux, if_neg (by simp [hc]),
      ih cs (c :: acc) (fun x hx => h x (List.mem_cons_of_mem c hx))]
    simp

/-- Splitting at LineTerminators recovers the lines of a newline-join of
terminator-free lines. -/
theorem splitTerm_joinNL : ∀ lines : List (List Char), lines ≠ [] →
    (∀ l ∈ lines, ∀ c ∈ l, isLineTerm c = false) → splitTerm (joinNL lines) = lines := by
  intro lines
  induction lines with
  | nil => intro h; exact absurd rfl h
  | cons l ls ih =>
    intro _ h
    have hl := h l (List.mem_cons_self l ls)
    cases ls with
    | nil =>
      show splitTermAux (joinNL [l]) [] = [l]
      rw [joinNL]
      rw [show l = l ++ ([] : List Char) by simp, splitTermAux_append l [] [] hl]
      simp [splitTermAux]
    | cons l₂ ls₂ =>
      show splitTermAux (joinNL (l :: l₂ :: ls₂)) [] = l :: l₂ :: ls₂
      have hih := ih (List.cons_ne_nil l₂ ls₂) (fun x hx => h x (List.mem_cons_of_mem l hx))
      rw [joinNL, splitTermAux_append l _ [] hl, splitTermAux, if_pos (by decide)]
      simp only [List.append_nil, List.reverse_reverse]
      rw [show splitTermAux (joinNL (l₂ :: ls₂)) [] = splitTerm (joinNL (l₂ :: ls₂)) from rfl,
        hih]
      exact List.cons_ne_nil l₂ ls₂

/-- A bullet glyph is not a LineTerminator and not a backslash. -/
theorem bulletGlyph_props {g : Char} (hg : bulletGlyphP g = true) :
    isLineTerm g = false ∧ g ≠ '\\' := by
  have hcases : (g = '•' ∨ g = '*') ∨ g = '-' := by simpa [bulletGlyphP] using hg
  rcases hcases with (rfl | rfl) | rfl <;> exact ⟨by decide, by decide⟩

/-- Truth of `noDblNL` passes to the tail. -/
theorem noDblNL_tail {c : Char} {rest : List Char} (h : noDblNL (c :: rest) = true) :
    noDblNL rest = true := by
  rw [noDblNL, Bool.and_eq_true] at h
  exact h.2

/-- Prepending a newline-free block preserves `noDblNL`. -/
theorem noDblNL_prepend (l : List Char) :
    ∀ cs : List Char, '\n' ∉ l → noDblNL cs = true → noDblNL (l ++ cs) = true := by
  induction l with
  | nil => intro cs _ h; simpa using h
  | cons c t ih =>
    intro cs h hcs
    have hc : (c = '\n') = False := by
      simp only [eq_iff_iff, iff_false]
      exact fun hx => h (hx ▸ List.mem_cons_self c t)
    rw [List.cons_append, noDblNL, Bool.and_eq_true]
    refine ⟨?_, ih cs (fun hx => h (List.mem_cons_of_mem c hx)) hcs⟩
    cases (t ++ cs).head? with
    | none => rfl
    | some c2 => simp [hc]

/-- On text without a double newline the paragraph split returns the single
chunk unchanged (stated with the pending-newline counter of the scanner). -/
theorem splitDblAux_id :
    ∀ (cs acc : List Char) (p : Nat), p ≤ 1 →
      (p = 1 → cs.head? ≠ some '\n') → noDblNL cs = true →
      splitDblAux cs acc p = [acc.reverse ++ List.replicate p '\n' ++ cs] := by
  intro cs
  induction cs with
  | nil =>
    intro acc p hp _ _
    rw [splitDblAux, if_neg (by omega)]
    simp
  | cons c rest ih =>
    intro acc p hp hph hnd
    by_cases hc : c = '\n'
    · subst hc
      have hp0 : p = 0 := by
        by_contra hne
        have hp1 : p = 1 := by omega
        exact hph hp1 rfl
      subst hp0
      rw [splitDblAux, if_pos rfl]
      have hrest : rest.head? ≠ some '\n' := by
        intro hx
        rw [noDblNL, hx, Bool.and_eq_true] at hnd
        simp at hnd
      rw [ih acc 1 (by omega) (fun _ => hrest) (noDblNL_tail hnd)]
      simp
    · rw [splitDblAux, if_neg hc, if_neg (by omega)]
      rw [ih (c :: (List.replicate p '\n' ++ acc)) 0 (by omega) (by simp) (noDblNL_tail hnd)]
      simp [List.reverse_append, List.reverse_replicate]

/-- A character other than a newline that occurs in no line does not occur
in the newline-join. -/
theorem joinNL_not_mem (x : Char) (hx : x ≠ '\n') :
    ∀ lines : List (List Char), (∀ l ∈ lines, x ∉ l) → x ∉ joinNL lines := by
  intro lines
  induction lines with
  | nil => intro _; simp [joinNL]
  | cons l ls ih =>
    intro h
    cases ls with
    | nil =>
      rw [joinNL]
      exact h l (by simp)
    | cons l₂ ls₂ =>
      rw [joinNL]
      · intro hmem
        rcases List.mem_append.mp hmem with hin | hin
        · exact h l (by simp) hin
        · rcases List.mem_cons.mp hin with heq | hin2
          · exact hx heq
          · exact ih (fun y hy => h y (List.mem_cons_of_mem l hy)) hin2
      · exact List.cons_ne_nil l₂ ls₂

/-- Joining lines that start with two known characters yields a string with
those two characters in front. -/
theorem joinNL_cons_shape (a b : Char) (c : List Char) (ls : List (List Char)) :
    ∃ t, joinNL ((a :: b :: c) :: ls) = a :: b :: t := by
  cases ls with
  | nil => exact ⟨c, by rw [joinNL]⟩
  | cons l₂ ls₂ =>
    refine ⟨c ++ '\n' :: joinNL (l₂ :: ls₂), ?_⟩
    rw [joinNL]
    · simp
    · exact List.cons_ne_nil l₂ ls₂

/-- The newline-join of non-empty newline-free lines has no double
newline. -/
theorem noDblNL_joinNL :
    ∀ lines : List (List Char), (∀ l ∈ lines, l ≠ [] ∧ '\n' ∉ l) →
      noDblNL (joinNL lines) = true := by
  intro lines
  induction lines with
  | nil => intro _; rfl
  | cons l ls ih =>
    intro h
    cases ls with
    | nil =>
      rw [joinNL]
      have := noDblNL_prepend l [] (h l (by simp)).2 rfl
      simpa using this
    | cons l₂ ls₂ =>
      rw [joinNL]
      · apply noDblNL_prepend l _ (h l (by simp)).2
        rw [noDblNL, Bool.and_eq_true]
        refine ⟨?_, ih (fun x hx => h x (List.mem_cons_of_mem l hx))⟩
        obtain ⟨hne, hnl⟩ := h l₂ (by simp)
        cases l₂ with
        | nil => exact absurd rfl hne
        | cons a t =>
          have ha : (a = '\n') = False := by
            simp only [eq_iff_iff, iff_false]
            exact fun hx => hnl (hx ▸ List.mem_cons_self a t)
          obtain ⟨t2, ht2⟩ : ∃ t2, joinNL ((a :: t) :: ls₂) = a :: t2 := by
            cases t with
            | nil =>
              cases ls₂ with
              | nil => exact ⟨[], by rw [joinNL]⟩
              | cons l₃ ls₃ =>
                refine ⟨'\n' :: joinNL (l₃ :: ls₃), ?_⟩
                rw [joinNL]
                · simp
                · exact List.cons_ne_nil l₃ ls₃
            | cons b t' =>
              obtain ⟨t2, ht2⟩ := joinNL_cons_shape a b t' ls₂
              exact ⟨b :: t2, ht2⟩
          rw [ht2]
          simp [ha]
      · exact List.cons_ne_nil l₂ ls₂
/-- A glyph-space line whose content starts with a non-whitespace character
and contains no LineTerminator is matched by the per-line bullet regex with
the content as the capture. -/
theorem bulletLineMatch_glyph (g h1 : Char) (t : List Char) (hg : bulletGlyphP g = true)
    (hws : isWS h1 = false) (hlt : ∀ c ∈ h1 :: t, isLineTerm c = false) :
    bulletLineMatch (g :: ' ' :: h1 :: t) = some (h1 :: t) := by
  have hk : wsRunLen (' ' :: h1 :: t) = 1 := by
    unfold wsRunLen
    rw [List.takeWhile_cons_of_pos (by decide), List.takeWhile_cons_of_neg (by simp [hws])]
    rfl
  have hany : (h1 :: t).any isLineTerm = false := by
    rw [List.any_eq_false]
    intro c hc
    simp [hlt c hc]
  simp only [bulletLineMatch]
  rw [if_pos hg]
  simp only [hk]
  simp [hany]

/-- Inside an open list, consecutive glyph lines render as one `<li>` per
line with the final close tag. -/
theorem renderBulletLines_inList (colors : Palette) :
    ∀ items : List (Char × List Char),
      (∀ p ∈ items, bulletGlyphP p.1 = true ∧ ∃ h1 t, p.2 = h1 :: t ∧ isWS h1 = false ∧
        (∀ c ∈ h1 :: t, isLineTerm c = false)) →
      renderBulletLines colors (items.map (fun p => p.1 :: ' ' :: p.2)) true =
        (items.map (fun p => S "<li class=\"pl-1\">" ++ p.2 ++ S "</li>")).flatten ++
          S "</ul>" := by
  intro items
  induction items with
  | nil => intro _; rfl
  | cons q qs ih =>
    intro h
    obtain ⟨g, c⟩ := q
    obtain ⟨hg, h1, t, hc, hws, hlt⟩ := h (g, c) (by simp)
    change c = h1 :: t at hc
    subst hc
    rw [List.map_cons, renderBulletLines, bulletLineMatch_glyph g h1 t hg hws hlt]
    rw [ih (fun x hx => h x (List.mem_cons_of_mem _ hx))]
    simp [List.append_assoc]

/-- A bullet-only input — each line a bullet glyph, a space and non-blank
LineTerminator-free content, no blank lines — renders as exactly one
unordered list with one item per line. -/
theorem formatBulletPoints_only (colors : Palette) (config : FormatConfig)
    (items : List (Char × List Char)) (hne : items ≠ [])
    (h : ∀ p ∈ items, bulletGlyphP p.1 = true ∧ ∃ h1 t, p.2 = h1 :: t ∧ isWS h1 = false ∧
      (∀ c ∈ h1 :: t, isLineTerm c = false)) :
    formatBulletPoints (joinNL (items.map (fun p => p.1 :: ' ' :: p.2))) colors config =
      wrapInContainer
        (bpUlOpen colors ++
          (items.map (fun p => S "<li class=\"pl-1\">" ++ p.2 ++ S "</li>")).flatten ++
          S "</ul>")
        colors config := by
  have hlineT : ∀ l ∈ items.map (fun p => p.1 :: ' ' :: p.2),
      l ≠ [] ∧ (∀ c ∈ l, isLineTerm c = false) := by
    intro l hl
    obtain ⟨p, hp, rfl⟩ := List.mem_map.mp hl
    obtain ⟨hg, h1, t, hct, hws, hlt⟩ := h p hp
    refine ⟨by simp, ?_⟩
    intro c hc
    rcases List.mem_cons.mp hc with rfl | hc2
    · exact (bulletGlyph_props hg).1
    rcases List.mem_cons.mp hc2 with rfl | hc3
    · decide
    · exact hlt c (hct ▸ hc3)
  have hlines : ∀ l ∈ items.map (fun p => p.1 :: ' ' :: p.2), l ≠ [] ∧ '\n' ∉ l := by
    intro l hl
    refine ⟨(hlineT l hl).1, ?_⟩
    intro hmem
    exact absurd ((hlineT l hl).2 '\n' hmem) (by decide)
  have hsplitDbl : splitDbl (joinNL (items.map (fun p => p.1 :: ' ' :: p.2))) =
      [joinNL (items.map (fun p => p.1 :: ' ' :: p.2))] := by
    unfold splitDbl
    rw [splitDblAux_id _ [] 0 (by omega) (by simp) (noDblNL_joinNL _ hlines)]
    simp
  have hsplitTerm : splitTerm (joinNL (items.map (fun p => p.1 :: ' ' :: p.2))) =
      items.map (fun p => p.1 :: ' ' :: p.2) :=
    splitTerm_joinNL _ (by simpa using hne) (fun l hl => (hlineT l hl).2)
  have hsplitNL : splitNL (joinNL (items.map (fun p => p.1 :: ' ' :: p.2))) =
      items.map (fun p => p.1 :: ' ' :: p.2) :=
    splitNL_joinNL _ (by simpa using hne) (fun l hl => (hlines l hl).2)
  unfold formatBulletPoints
  rw [hsplitDbl, List.map_cons, List.map_nil, hsplitTerm, hsplitNL]
  have hany : (items.map (fun p => p.1 :: ' ' :: p.2)).any bulletStartTest = true := by
    cases items with
    | nil => exact absurd rfl hne
    | cons q qs =>
      obtain ⟨hg, -⟩ := h q (by simp)
      rw [List.map_cons, List.any_cons]
      have hbst : bulletStartTest (q.1 :: ' ' :: q.2) = true := by
        show (bulletGlyphP q.1 && isWS ' ') = true
        rw [hg]
        decide
      rw [hbst, Bool.true_or]
  rw [if_pos hany]
  have hrender : renderBulletLines colors (items.map (fun p => p.1 :: ' ' :: p.2)) false =
      bpUlOpen colors ++
        (items.map (fun p => S "<li class=\"pl-1\">" ++ p.2 ++ S "</li>")).flatten ++
        S "</ul>" := by
    cases items with
    | nil => exact absurd rfl hne
    | cons q qs =>
      obtain ⟨g, c⟩ := q
      obtain ⟨hg, h1, t, hct, hws, hlt⟩ := h (g, c) (by simp)
      change c = h1 :: t at hct
      subst hct
      rw [List.map_cons, renderBulletLines, bulletLineMatch_glyph g h1 t hg hws hlt]
      rw [renderBulletLines_inList colors qs
        (fun x hx => h x (List.mem_cons_of_mem _ hx))]
      simp [List.append_assoc]
  rw [hrender]
  simp
/-- C7: a bullet-only input — consecutive lines each a bullet glyph (`•`, `*`
or `-`), a space and non-blank content free of LineTerminators and
backslashes, no blank lines — produces exactly one unordered-list fragment
with exactly one list item per line, each holding that line's text, and such
an input without a numbered marker dispatches to the bullet formatter. -/
theorem claim_C7 :
    ∀ (items : List (Char × List Char)) (opts : JsOptions) (colors : Palette)
      (config : FormatConfig),
      items ≠ [] →
      (∀ p ∈ items, bulletGlyphP p.1 = true ∧ ∃ h1 t, p.2 = h1 :: t ∧ isWS h1 = false ∧
        (∀ c ∈ h1 :: t, isLineTerm c = false) ∧ '\\' ∉ h1 :: t) →
      (formatBulletPoints (joinNL (items.map (fun p => p.1 :: ' ' :: p.2))) colors config =
        wrapInContainer
          (bpUlOpen colors ++
            (items.map (fun p => S "<li class=\"pl-1\">" ++ p.2 ++ S "</li>")).flatten ++
            S "</ul>")
          colors config) ∧
      (hasNumMarker (joinNL (items.map (fun p => p.1 :: ' ' :: p.2))) = false →
        formatMessage (joinNL (items.map (fun p => p.1 :: ' ' :: p.2))) opts =
          formatBulletPoints (joinNL (items.map (fun p => p.1 :: ' ' :: p.2)))
            (resolveColors (mergeConfig opts)) (mergeConfig opts)) := by
  intro items opts colors config hne h
  refine ⟨formatBulletPoints_only colors config items hne
    (fun p hp => by
      obtain ⟨hg, h1, t, hct, hws, hlt, -⟩ := h p hp
      exact ⟨hg, h1, t, hct, hws, hlt⟩), ?_⟩
  intro hnum
  obtain ⟨q0, qs0, rfl⟩ : ∃ q0 qs0, items = q0 :: qs0 := by
    cases items with
    | nil => exact absurd rfl hne
    | cons a b => exact ⟨a, b, rfl⟩
  obtain ⟨g0, c0⟩ := q0
  obtain ⟨hg0, h1₀, t₀, hct₀, -, -, hnb₀⟩ := h (g0, c0) (by simp)
  change c0 = h1₀ :: t₀ at hct₀
  subst hct₀
  obtain ⟨tail, htail⟩ :=
    joinNL_cons_shape g0 ' ' (h1₀ :: t₀) (qs0.map (fun p => p.1 :: ' ' :: p.2))
  rw [List.map_cons]
  rw [List.map_cons] at hnum
  have hshape : joinNL ((g0 :: ' ' :: h1₀ :: t₀) :: qs0.map (fun p => p.1 :: ' ' :: p.2)) =
      g0 :: ' ' :: tail := htail
  have hneL : joinNL ((g0 :: ' ' :: h1₀ :: t₀) :: qs0.map (fun p => p.1 :: ' ' :: p.2)) ≠ [] := by
    rw [hshape]; simp
  have hnb : '\\' ∉ joinNL ((g0 :: ' ' :: h1₀ :: t₀) :: qs0.map (fun p => p.1 :: ' ' :: p.2)) := by
    apply joinNL_not_mem '\\' (by decide)
    intro l hl
    rcases List.mem_cons.mp hl with rfl | hl2
    · intro hmem
      rcases List.mem_cons.mp hmem with h' | hmem2
      · exact (bulletGlyph_props hg0).2 h'.symm
      rcases List.mem_cons.mp hmem2 with h' | hmem3
      · exact absurd h' (by decide)
      · exact hnb₀ hmem3
    · obtain ⟨p, hp, rfl⟩ := List.mem_map.mp hl2
      obtain ⟨hg, h1, t, hct, -, -, hnb⟩ := h p (List.mem_cons_of_mem _ hp)
      intro hmem
      rcases List.mem_cons.mp hmem with h' | hmem2
      · exact (bulletGlyph_props hg).2 h'.symm
      rcases List.mem_cons.mp hmem2 with h' | hmem3
      · exact absurd h' (by decide)
      · exact hnb (hct ▸ hmem3)
  have hclean :
      cleanNewlines (joinNL ((g0 :: ' ' :: h1₀ :: t₀) :: qs0.map (fun p => p.1 :: ' ' :: p.2))) =
        joinNL ((g0 :: ' ' :: h1₀ :: t₀) :: qs0.map (fun p => p.1 :: ' ' :: p.2)) :=
    cleanNewlines_id _ hnb
  have hbul :
      hasBulletGlyph (joinNL ((g0 :: ' ' :: h1₀ :: t₀) :: qs0.map (fun p => p.1 :: ' ' :: p.2))) =
        true := by
    apply (hasBulletGlyph_iff _).mpr
    have hcases : (g0 = '•' ∨ g0 = '*') ∨ g0 = '-' := by simpa [bulletGlyphP] using hg0
    rcases hcases with (rfl | rfl) | rfl
    · exact Or.inl ⟨[], ' ' :: tail, by rw [hshape]; rfl⟩
    · exact Or.inr ⟨[], '*', ' ', tail, by rw [hshape]; rfl, Or.inl rfl, by decide⟩
    · exact Or.inr ⟨[], '-', ' ', tail, by rw [hshape]; rfl, Or.inr rfl, by decide⟩
  unfold formatMessage
  rw [if_neg hneL]
  simp only [hclean, hnum, hbul, Bool.false_eq_true, if_false, if_true]

/-- Witness for C7: the spec's own example input. -/
theorem claim_C7_witness :
    formatMessage (S "- First point\n- Second point") defaultOpts =
      wrapInContainer
        (bpUlOpen (resolveColors (mergeConfig defaultOpts)) ++
          (S "<li class=\"pl-1\">First point</li>" ++ S "<li class=\"pl-1\">Second point</li>") ++
          S "</ul>")
        (resolveColors (mergeConfig defaultOpts)) (mergeConfig defaultOpts) := by
  have harg : joinNL ([('-', S "First point"), ('-', S "Second point")].map
      (fun p => p.1 :: ' ' :: p.2)) = S "- First point\n- Second point" := by decide
  have hyp : ∀ p ∈ [('-', S "First point"), ('-', S "Second point")],
      bulletGlyphP p.1 = true ∧ ∃ h1 t, p.2 = h1 :: t ∧ isWS h1 = false ∧
        (∀ c ∈ h1 :: t, isLineTerm c = false) ∧ '\\' ∉ h1 :: t := by
    intro p hp
    rcases List.mem_cons.mp hp with rfl | hp2
    · exact ⟨by decide, 'F', S "irst point", rfl, by decide, by decide, by decide⟩
    rcases List.mem_cons.mp hp2 with rfl | hp3
    · exact ⟨by decide, 'S', S "econd point", rfl, by decide, by decide, by decide⟩
    · cases hp3
  have hc := claim_C7 [('-', S "First point"), ('-', S "Second point")] defaultOpts
    (resolveColors (mergeConfig defaultOpts)) (mergeConfig defaultOpts)
    (by simp) hyp
  have h2 := hc.2 (by decide)
  have h1 := hc.1
  calc formatMessage (S "- First point\n- Second point") defaultOpts
      = formatMessage (joinNL ([('-', S "First point"), ('-', S "Second point")].map
          (fun p => p.1 :: ' ' :: p.2))) defaultOpts := by rw [harg]
    _ = formatBulletPoints (joinNL ([('-', S "First point"), ('-', S "Second point")].map
          (fun p => p.1 :: ' ' :: p.2)))
          (resolveColors (mergeConfig defaultOpts)) (mergeConfig defaultOpts) := h2
    _ = wrapInContainer
          (bpUlOpen (resolveColors (mergeConfig defaultOpts)) ++
            ([('-', S "First point"), ('-', S "Second point")].map
              (fun p => S "<li class=\"pl-1\">" ++ p.2 ++ S "</li>")).flatten ++
            S "</ul>")
          (resolveColors (mergeConfig defaultOpts)) (mergeConfig defaultOpts) := h1
    _ = _ := by decide
/-- Decomposition form of a successful prefix test. -/
theorem isPrefixOf_ex : ∀ (n h : List Char), n.isPrefixOf h = true ↔ ∃ t, h = n ++ t := by
  intro n
  induction n with
  | nil => intro h; simp [List.isPrefixOf]
  | cons c nt ih =>
    intro h
    cases h with
    | nil =>
      simp [List.isPrefixOf]
    | cons d ht =>
      constructor
      · intro hx
        simp only [List.isPrefixOf, Bool.and_eq_true, beq_iff_eq] at hx
        obtain ⟨t, ht'⟩ := (ih ht).mp hx.2
        exact ⟨t, by simp [hx.1, ht']⟩
      · rintro ⟨t, ht'⟩
        simp only [List.cons_append, List.cons.injEq] at ht'
        simp only [List.isPrefixOf, Bool.and_eq_true, beq_iff_eq]
        exact ⟨ht'.1.symm, (ih ht).mpr ⟨t, ht'.2⟩⟩

/-- Substring occurrence as an explicit decomposition. -/
theorem isSubstr_iff (n h : List Char) :
    isSubstr n h = true ↔ ∃ a b, h = a ++ n ++ b := by
  induction h with
  | nil =>
    rw [isSubstr]
    constructor
    · intro hx
      simp only [Bool.or_false] at hx
      obtain ⟨t, ht⟩ := (isPrefixOf_ex n []).mp hx
      exact ⟨[], t, by simpa using ht⟩
    · rintro ⟨a, b, hab⟩
      have h0 : a ++ (n ++ b) = [] := by simpa using hab.symm
      rw [List.append_eq_nil] at h0
      have h1 := h0.2
      rw [List.append_eq_nil] at h1
      simp only [Bool.or_false]
      exact (isPrefixOf_ex n []).mpr ⟨[], by simp [h1.1]⟩
  | cons c t ih =>
    rw [isSubstr]
    constructor
    · intro hx
      rcases Bool.or_eq_true_iff.mp hx with hp | hr
      · obtain ⟨s, hs⟩ := (isPrefixOf_ex n (c :: t)).mp hp
        exact ⟨[], s, by simpa using hs⟩
      · obtain ⟨a, b, hab⟩ := ih.mp hr
        exact ⟨c :: a, b, by simp [hab]⟩
    · rintro ⟨a, b, hab⟩
      cases a with
      | nil =>
        apply Bool.or_eq_true_iff.mpr
        left
        exact (isPrefixOf_ex n (c :: t)).mpr ⟨b, by simpa using hab⟩
      | cons x a' =>
        apply Bool.or_eq_true_iff.mpr
        right
        simp only [List.cons_append, List.cons.injEq] at hab
        exact ih.mpr ⟨a', b, hab.2⟩

/-- A needle occurs in itself. -/
theorem isSubstr_refl (n : List Char) : isSubstr n n = true :=
  (isSubstr_iff n n).mpr ⟨[], [], by simp⟩

/-- Occurrence is preserved by prepending. -/
theorem isSubstr_appendl {n t : List Char} (x : List Char) (h : isSubstr n t = true) :
    isSubstr n (x ++ t) = true := by
  obtain ⟨a, b, hab⟩ := (isSubstr_iff n t).mp h
  exact (isSubstr_iff n (x ++ t)).mpr ⟨x ++ a, b, by simp [hab]⟩

/-- Occurrence is preserved by appending. -/
theorem isSubstr_appendr {n t : List Char} (y : List Char) (h : isSubstr n t = true) :
    isSubstr n (t ++ y) = true := by
  obtain ⟨a, b, hab⟩ := (isSubstr_iff n t).mp h
  exact (isSubstr_iff n (t ++ y)).mpr ⟨a, b ++ y, by simp [hab]⟩
/-- C6 counterexample: a product-listing numbered-list input whose single
item contains the line `Available in Blue, Red, and Green` together with a
bullet sub-item.  The bullet branch of `formatProductItem` renders only the
bullet list, so the colour list is absent from the output. -/
theorem claim_C6_counterexample :
    hasNumMarker (S "1. **Chair**\n- Sturdy\nAvailable in Blue, Red, and Green") = true ∧
    isProductLike (S "1. **Chair**\n- Sturdy\nAvailable in Blue, Red, and Green") = true ∧
    buildItems (S "1. **Chair**\n- Sturdy\nAvailable in Blue, Red, and Green")
      (numMatches (S "1. **Chair**\n- Sturdy\nAvailable in Blue, Red, and Green")) =
      [⟨S "1", S "**Chair**\n- Sturdy\nAvailable in Blue, Red, and Green"⟩] ∧
    isSubstr (S "Available in Blue, Red, and Green")
      (S "**Chair**\n- Sturdy\nAvailable in Blue, Red, and Green") = true ∧
    isSubstr (S "Blue, Red, and Green")
      (formatMessage (S "1. **Chair**\n- Sturdy\nAvailable in Blue, Red, and Green")
        defaultOpts) = false :=
  ⟨by decide, by decide, by decide, by decide, by decide⟩

/-- C6 (amended): when the item's cleaned body yields no bullet sub-items
and its first `Available in` clause captures the colour list (after the
trim and bold-code cleanup the renderer applies), the rendered product
markup contains `Blue, Red, and Green`. -/
theorem claim_C6 :
    ∀ (item : ListItem) (colors : Palette) (config : FormatConfig) (cap : List Char),
      prodListItems (productRemaining item.content) = [] →
      availMatch (productRemaining item.content) = some cap →
      isSubstr (S "Blue, Red, and Green") (boldNumStrip (trimJS cap)) = true →
      isSubstr (S "Blue, Red, and Green") (formatProductItem item colors config) = true := by
  intro item colors config cap hli hav hsub
  unfold formatProductItem
  simp only [hli, hav, ne_eq, not_true_eq_false, if_false, Option.isSome_some, if_true]
  apply isSubstr_appendr
  apply isSubstr_appendl
  apply isSubstr_appendr
  apply isSubstr_appendl
  apply isSubstr_appendl
  exact hsub

/-- Witness for the amended C6 at a concrete bullet-free product item. -/
theorem claim_C6_witness :
    isSubstr (S "Blue, Red, and Green")
      (formatProductItem ⟨S "1", S "**Chair**\nAvailable in Blue, Red, and Green"⟩
        (lightPalette (S "#000")) (mergeConfig defaultOpts)) = true :=
  claim_C6 ⟨S "1", S "**Chair**\nAvailable in Blue, Red, and Green"⟩
    (lightPalette (S "#000")) (mergeConfig defaultOpts)
    (S "Blue, Red, and Green") (by decide) (by decide) (by decide)
